import Mathlib

/-!
Verification development for the orbital point-sampler and shape-fitting core
of src/sketch.js (3D atomic-orbital visualization).

Modelling conventions for the shallow embedding:

* JS numbers are modelled as real numbers (exact arithmetic); integer-valued
  quantities as Nat or Int; helpers whose arithmetic is purely rational may be
  modelled over Rat so that concrete instances can be decided.
* The p5 uniform generator random() returning a draw in [0,1) is modelled by
  explicit streams of reals passed as arguments; random(a,b) = a + (b-a)*u
  (helper randRange below).  Where the source consumes one global stream
  sequentially, the model hands each consumer (point index, attempt index) its
  own draws; since the theorems quantify over all streams, every actual
  interleaved sequence of draws is covered by some choice of arguments.
* Stateful code (the chunked sampler, the session counter) is modelled by
  explicit state passing: a chunk execution is a function from sampler state
  to a result, and the timer-driven scheduling is a fold over an event list.
* The source file defines percentile, kmeans and sampleOrbitalChunked twice;
  in JS the later function declaration shadows the earlier one, so the
  effective definitions are the later ones (percentile at line 3061, kmeans at
  line 3069, sampleOrbitalChunked at line 5085) and those are embedded here.
* kmeans (line 3069) is driven by the random centroid initialisation; the
  shape-fitting code is analysed for an arbitrary clustering result, passed as
  a parameter of type List (List Nat) (lists of sample indices), which covers
  every output kmeans can produce.
-/

namespace Sketch

/-- Radial unit tuning constant (sketch.js line 43). -/
def a0 : ℝ := 40

/-- Samples attempted per scheduled chunk (line 47). -/
def CHUNK_SAMPLES : ℕ := 1000

/-- Attempt budget of one chunk (line 48). -/
def ATTEMPTS_PER_CHUNK : ℕ := 20000

/-- Nucleus radius (line 62). -/
def NUCLEUS_RADIUS : ℝ := 18.0

/-- Minimum clearance between nucleus and electrons (line 63). -/
def ELECTRON_MIN_GAP : ℝ := 6.0

/-- Global distance multiplier applied to the radial scale (line 65). -/
def ELECTRON_DISTANCE_MULTIPLIER : ℚ := 1.6

/-- Minimum allowed distance from the origin, NUCLEUS_RADIUS + ELECTRON_MIN_GAP
(appears as minAllowed / minR throughout the source). -/
def minAllowed : ℝ := NUCLEUS_RADIUS + ELECTRON_MIN_GAP

/-- Outward push factor for non-equatorial points (line 110). -/
def GLOBAL_RADIAL_PUSH : ℝ := 1.15

/-- Outward push factor for equatorial points (line 111). -/
def EQ_RADIAL_PUSH : ℝ := 1.35

/-- Extra multiplier for near-nucleus points in near mode (line 112). -/
def NEAR_NUCLEAR_PUSH_MULT : ℝ := 2.0

/-- Default near-threshold multiple of minAllowed (line 113). -/
def NEAR_THRESHOLD_MULT : ℝ := 1.5

/-- Absolute near threshold used for the dz2 call (line 114). -/
def NEAR_THRESHOLD_ABS : ℝ := 80.0

/-- Absolute equatorial near threshold used for the dz2 call (line 115). -/
def NEAR_THRESHOLD_EQ_ABS : ℝ := 120.0

/-- Hard cap on the electron count (line 149). -/
def MAX_ELECTRONS : ℤ := 30000

/-- Epsilon guard used by pushElectronsOutward and the chunked sampler
(lines 3593, 5062). -/
def EPS : ℝ := 1e-6

/-- A sampled 3D point (one triple of the positions Float32Array). -/
abbrev Point : Type := ℝ × ℝ × ℝ

/-- Euclidean distance of a point from the origin. -/
noncomputable def norm3 (p : Point) : ℝ :=
  Real.sqrt (p.1 * p.1 + p.2.1 * p.2.1 + p.2.2 * p.2.2)

/-- p5 random(lo, hi) applied to a unit draw u: lo + (hi - lo) * u. -/
def randRange (lo hi u : ℝ) : ℝ := lo + (hi - lo) * u

/-- percentile (line 3061): sort ascending, take entry min(len-1, floor(p*len)).
Every call site uses p between 0.10 and 0.95, for which the floor index is
non-negative whenever the list is non-empty; the JS out-of-range access for
negative p is outside the modelled input range. -/
noncomputable def percentile (arr : List ℝ) (p : ℝ) : ℝ :=
  if arr.length = 0 then 0
  else
    let copy := arr.insertionSort (fun a b => a ≤ b)
    let idx : ℤ := min ((copy.length : ℤ) - 1) ⌊p * (copy.length : ℝ)⌋
    copy.getD idx.toNat 0

/-- Iteration of the seed loop of associatedLegendre (lines 5220-5223):
state (pmm, fact); each step does pmm := pmm * (-fact * somx2); fact := fact + 2. -/
noncomputable def pmmIter (somx2 : ℝ) : ℕ → ℝ × ℝ → ℝ × ℝ
  | 0, st => st
  | i + 1, st => pmmIter somx2 i (st.1 * (-st.2 * somx2), st.2 + 2)

/-- Upward recurrence loop of associatedLegendre (lines 5234-5238): for ll from
its start value while ll ≤ l, with carried pair (plmPrev, plm). -/
noncomputable def legUp (m l : ℕ) (x : ℝ) (ll : ℕ) (plmPrev plm : ℝ) : ℝ :=
  if ll ≤ l then
    legUp m l x (ll + 1) plm
      (((2 * (ll : ℝ) - 1) * x * plm - ((ll : ℝ) + (m : ℝ) - 1) * plmPrev) /
        ((ll : ℝ) - (m : ℝ)))
  else plm
termination_by l + 1 - ll

/-- associatedLegendre (lines 5213-5241): seed P_m^m, then P_{m+1}^m, then the
upward recurrence to l.  The source returns 0 when m > l. -/
noncomputable def associatedLegendre (l m : ℕ) (x : ℝ) : ℝ :=
  if l < m then 0
  else
    let pmm : ℝ :=
      if 0 < m then (pmmIter (Real.sqrt (max 0 (1 - x * x))) m (1, 1)).1 else 1
    if l = m then pmm
    else
      let pmmp1 := x * (2 * (m : ℝ) + 1) * pmm
      if l = m + 1 then pmmp1
      else legUp m l x (m + 2) pmm pmmp1

/-- angularProb (lines 5201-5211): squared real-spherical-harmonic angular
density with the 1e-30 floor.  l is a natural number (the UI guarantees
0 ≤ l); m may be negative. -/
noncomputable def angularProb (theta phi : ℝ) (l : ℕ) (m : ℤ) : ℝ :=
  let x := Real.cos theta
  let mm := m.natAbs
  let Plm := associatedLegendre l mm x
  let ang := if 0 < m then Plm * Real.cos ((m : ℝ) * phi)
    else if m < 0 then Plm * Real.sin ((mm : ℝ) * phi)
    else Plm
  ang * ang + 1e-30

/-- Real.sqrt ignores the max-with-zero clamp the source applies before taking
the square root (sqrt of a negative real is 0 in Mathlib). -/
theorem sqrt_max_zero (A : ℝ) : Real.sqrt (max 0 A) = Real.sqrt A := by
  rcases le_total A 0 with h | h
  · rw [max_eq_left h, Real.sqrt_zero]
    exact (Real.sqrt_eq_zero'.mpr h).symm
  · rw [max_eq_right h]

/-- C7: the associated-Legendre recurrence matches the closed forms
P_0^0 = 1, P_1^0(x) = x, P_1^1(x) = -sqrt(1-x^2), P_2^0(x) = 0.5*(3x^2-1),
for every real x (for |x| > 1 both sides of the P_1^1 identity are the
negation of Real.sqrt of a non-positive number, i.e. 0). -/
theorem c7_associatedLegendre_closed_forms (x : ℝ) :
    associatedLegendre 0 0 x = 1 ∧
    associatedLegendre 1 0 x = x ∧
    associatedLegendre 1 1 x = -Real.sqrt (1 - x ^ 2) ∧
    associatedLegendre 2 0 x = 0.5 * (3 * x ^ 2 - 1) := by
  refine ⟨?_, ?_, ?_, ?_⟩
  · simp [associatedLegendre]
  · simp [associatedLegendre]
  · simp only [associatedLegendre, pmmIter]
    norm_num [sqrt_max_zero]
    ring_nf
  · simp only [associatedLegendre]
    norm_num
    rw [legUp]
    norm_num
    rw [legUp]
    norm_num
    ring

/-- radialLScale (lines 5343-5347): per-l radial compression factor.  JS's
truthiness test (!l || l <= 0) is l ≤ 0 for integer l. -/
def radialLScale (l : ℤ) : ℚ :=
  if l ≤ 0 then 1.0 else max 0.6 (1 - 0.06 * (l : ℚ))

/-- Radial scale used by the sampler (line 5095):
radialLScale(l) * ELECTRON_DISTANCE_MULTIPLIER. -/
noncomputable def radialScale (l : ℤ) : ℝ :=
  ((radialLScale l * ELECTRON_DISTANCE_MULTIPLIER : ℚ) : ℝ)

/-- Radius scale proportional to n (line 5094): thetaScale = n * a0 / 2. -/
noncomputable def thetaScale (n : ℕ) : ℝ := (n : ℝ) * a0 / 2

/-- Number of exponential variates k = max(1, 2l+3) (line 5093). -/
def kOf (l : ℕ) : ℕ := max 1 (2 * l + 3)

/-- Pre-rejection radius draw (line 5117): r = thetaScale * sumExp * radialScale. -/
noncomputable def radiusDraw (n : ℕ) (l : ℤ) (sumExp : ℝ) : ℝ :=
  thetaScale n * sumExp * radialScale l

/-- One exponential(1) variate from a unit draw (lines 5111-5114): u is clamped
below by 1e-12 and -log(u) is returned. -/
noncomputable def expDraw (u : ℝ) : ℝ :=
  -Real.log (if u ≤ 1e-12 then 1e-12 else u)

open MeasureTheory in
/-- C8: the per-l radial compression factor radialLScale (line 5343) is
monotonically non-increasing in l and bounded below by 0.6, and the mean of
the pre-rejection radius draw r = thetaScale * sumExp * radialScale
(line 5117) is proportional to n for fixed l.  sumExp is the sum of
k = max(1, 2l+3) i.i.d. exponential(1) variates (lines 5110-5115); the mean
statement holds for any probability space carrying integrable variates of
mean 1, which the exponential(1) variates are. -/
theorem c8_radialLScale_monotone_and_mean_linear_in_n :
    (∀ l lp : ℤ, 0 ≤ l → l ≤ lp → radialLScale lp ≤ radialLScale l) ∧
    (∀ l : ℤ, (0.6 : ℚ) ≤ radialLScale l) ∧
    (∀ (n l : ℕ) (Ω : Type) [MeasurableSpace Ω] (μ : Measure Ω)
       [IsProbabilityMeasure μ] (e : ℕ → Ω → ℝ),
       (∀ i, Integrable (e i) μ) →
       (∀ i, ∫ ω, e i ω ∂μ = 1) →
       ∫ ω, radiusDraw n (l : ℤ) (∑ i ∈ Finset.range (kOf l), e i ω) ∂μ =
         (n : ℝ) * (a0 / 2 * (kOf l : ℝ) * radialScale (l : ℤ))) := by
  refine ⟨?_, ?_, ?_⟩
  · intro l lp h0 hle
    unfold radialLScale
    rcases le_or_lt lp 0 with hp | hp
    · rw [if_pos hp, if_pos (le_trans hle hp)]
    · rw [if_neg (not_le.mpr hp)]
      rcases le_or_lt l 0 with hl | hl
      · rw [if_pos hl]
        refine max_le (by norm_num) ?_
        have : (0 : ℚ) < (lp : ℚ) := by exact_mod_cast hp
        nlinarith
      · rw [if_neg (not_le.mpr hl)]
        refine max_le_max le_rfl ?_
        have : (l : ℚ) ≤ (lp : ℚ) := by exact_mod_cast hle
        nlinarith
  · intro l
    unfold radialLScale
    rcases le_or_lt l 0 with hl | hl
    · rw [if_pos hl]; norm_num
    · rw [if_neg (not_le.mpr hl)]; exact le_max_left _ _
  · intro n l Ω _ μ _ e hint hmean
    have h1 : ∀ ω, radiusDraw n (l : ℤ) (∑ i ∈ Finset.range (kOf l), e i ω) =
        (thetaScale n * radialScale (l : ℤ)) * (∑ i ∈ Finset.range (kOf l), e i ω) := by
      intro ω; unfold radiusDraw; ring
    calc ∫ ω, radiusDraw n (l : ℤ) (∑ i ∈ Finset.range (kOf l), e i ω) ∂μ
        = ∫ ω, (thetaScale n * radialScale (l : ℤ)) *
            (∑ i ∈ Finset.range (kOf l), e i ω) ∂μ := by
          simp only [h1]
      _ = (thetaScale n * radialScale (l : ℤ)) *
            ∫ ω, (∑ i ∈ Finset.range (kOf l), e i ω) ∂μ := by
          exact integral_mul_left _ _
      _ = (thetaScale n * radialScale (l : ℤ)) * (kOf l : ℝ) := by
          rw [integral_finset_sum]
          · simp [hmean]
          · intro i _; exact hint i
      _ = (n : ℝ) * (a0 / 2 * (kOf l : ℝ) * radialScale (l : ℤ)) := by
          unfold thetaScale; ring

/-- pushPoint: the body of the per-point loop of pushElectronsOutward
(lines 3595-3653), with the thresholds already computed.  The two sequential
if (applyNearMultiplier) blocks of the source (factor/targetMinDistance
adjustment, then the rescale-or-reseed dispatch) appear in order; the pair ft
is (factor, targetMinDistance). -/
noncomputable def pushPoint (globalFactor equatorialFactor : ℝ) (applyNearMultiplier : Bool)
    (nearMultiplier eqThreshold nearThreshold nearEqThreshold : ℝ)
    (rngA rngU rngP : ℕ → ℝ) (i : ℕ) (p : Point) : Point :=
  let x := p.1
  let y := p.2.1
  let z := p.2.2
  let rXY := Real.sqrt (x * x + y * y)
  let r3D := Real.sqrt (x * x + y * y + z * z)
  let factor0 := if |z| ≤ eqThreshold then equatorialFactor else globalFactor
  let ft : ℝ × ℝ :=
    if applyNearMultiplier then
      if |z| ≤ eqThreshold ∧ r3D ≤ nearEqThreshold then
        (factor0 * nearMultiplier, max minAllowed nearEqThreshold)
      else if ¬ (|z| ≤ eqThreshold) ∧ r3D ≤ nearThreshold then
        (factor0 * nearMultiplier, max minAllowed nearThreshold)
      else (factor0, minAllowed)
    else (factor0, minAllowed)
  if applyNearMultiplier then
    if r3D ≤ EPS then
      let ang := randRange 0 (2 * Real.pi) (rngA i)
      let newR := max ft.2 (0.5 * ft.1)
      (Real.cos ang * newR, Real.sin ang * newR, 0)
    else
      let newR3D := max ft.2 (r3D * ft.1)
      let s := newR3D / r3D
      (x * s, y * s, z * s)
  else
    if rXY ≤ EPS then
      if r3D ≤ EPS then
        let u := randRange (-1) 1 (rngU i)
        let theta := Real.arccos u
        let phi := randRange 0 (2 * Real.pi) (rngP i)
        let sr := Real.sin theta
        (minAllowed * sr * Real.cos phi, minAllowed * sr * Real.sin phi,
          minAllowed * Real.cos theta)
      else
        let newR3D := max minAllowed (r3D * ft.1)
        let s := newR3D / r3D
        (x * s, y * s, z * s)
    else
      let newR3D := max minAllowed (r3D * ft.1)
      let s := newR3D / r3D
      (x * s, y * s, z * s)

/-- Indexed map over the positions buffer (the for-loop of lines 3595-3654);
the index feeds the per-point random draws. -/
noncomputable def pushList (f : ℕ → Point → Point) : ℕ → List Point → List Point
  | _, [] => []
  | i, p :: rest => f i p :: pushList f (i + 1) rest

/-- pushElectronsOutward (lines 3577-3655): computes the 80th-percentile
equatorial threshold from the positive and negative z values, resolves the
optional thresholds (JS checks typeof number and isFinite, modelled by
Option), and rescales every point. -/
noncomputable def pushElectronsOutward (globalFactor equatorialFactor : ℝ)
    (applyNearMultiplier : Bool) (nearMultiplier : ℝ)
    (nearThresholdParam nearEquatorialThresholdParam : Option ℝ)
    (rngA rngU rngP : ℕ → ℝ) (positions : List Point) : List Point :=
  let posAxial := (positions.filter (fun p => 0 ≤ p.2.2)).map (fun p => p.2.2)
  let negAxial := (positions.filter (fun p => p.2.2 < 0)).map (fun p => -p.2.2)
  let t80posRaw := if posAxial.length = 0 then 0 else percentile posAxial 0.80
  let t80negRaw := if negAxial.length = 0 then 0 else percentile negAxial 0.80
  let eqThreshold := max (0.2 * max t80posRaw t80negRaw) 1.0
  let nearThreshold := match nearThresholdParam with
    | some v => v
    | none => minAllowed * NEAR_THRESHOLD_MULT
  let nearEqThreshold := match nearEquatorialThresholdParam with
    | some v => v
    | none => nearThreshold
  pushList (pushPoint globalFactor equatorialFactor applyNearMultiplier nearMultiplier
    eqThreshold nearThreshold nearEqThreshold rngA rngU rngP) 0 positions

theorem minAllowed_pos : (0:ℝ) < minAllowed := by
  norm_num [minAllowed, NUCLEUS_RADIUS, ELECTRON_MIN_GAP]

theorem minAllowed_nonneg : (0:ℝ) ≤ minAllowed := le_of_lt minAllowed_pos

theorem minAllowed_eq : minAllowed = 24 := by
  norm_num [minAllowed, NUCLEUS_RADIUS, ELECTRON_MIN_GAP]

theorem EPS_pos : (0:ℝ) < EPS := by norm_num [EPS]

theorem norm3_triple (a b c : ℝ) : norm3 (a, b, c) = Real.sqrt (a * a + b * b + c * c) := rfl

theorem sum_sq_nonneg (x y z : ℝ) : (0:ℝ) ≤ x * x + y * y + z * z := by
  nlinarith [mul_self_nonneg x, mul_self_nonneg y, mul_self_nonneg z]

/-- Norm of the planar reseed point of the near-nucleus branch (lines 3617-3621). -/
theorem reseed_planar_norm (ang R : ℝ) (hR : 0 ≤ R) :
    norm3 (Real.cos ang * R, Real.sin ang * R, 0) = R := by
  rw [norm3_triple]
  have h : Real.cos ang * R * (Real.cos ang * R) + Real.sin ang * R * (Real.sin ang * R)
      + 0 * 0 = R * R := by
    have hcs := Real.sin_sq_add_cos_sq ang
    nlinarith [hcs]
  rw [h, Real.sqrt_mul_self hR]

/-- Norm of the spherical reseed point (lines 3632-3638). -/
theorem reseed_sphere_norm (theta phi m : ℝ) (hm : 0 ≤ m) :
    norm3 (m * Real.sin theta * Real.cos phi, m * Real.sin theta * Real.sin phi,
      m * Real.cos theta) = m := by
  rw [norm3_triple]
  have h1 := Real.sin_sq_add_cos_sq theta
  have h2 := Real.sin_sq_add_cos_sq phi
  have e : m * Real.sin theta * Real.cos phi * (m * Real.sin theta * Real.cos phi) +
      m * Real.sin theta * Real.sin phi * (m * Real.sin theta * Real.sin phi) +
      m * Real.cos theta * (m * Real.cos theta) =
      m * m * (Real.sin theta ^ 2 * (Real.sin phi ^ 2 + Real.cos phi ^ 2) +
        Real.cos theta ^ 2) := by ring
  rw [e, h2]
  have e2 : Real.sin theta ^ 2 * 1 + Real.cos theta ^ 2 = 1 := by rw [mul_one, h1]
  rw [e2, mul_one, Real.sqrt_mul_self hm]

/-- Norm of a point rescaled to target 3D radius M (the s = newR3D/r3D branches). -/
theorem scale_norm (x y z M : ℝ) (hM : 0 ≤ M) (hr : 0 < Real.sqrt (x * x + y * y + z * z)) :
    norm3 (x * (M / Real.sqrt (x * x + y * y + z * z)),
      y * (M / Real.sqrt (x * x + y * y + z * z)),
      z * (M / Real.sqrt (x * x + y * y + z * z))) = M := by
  rw [norm3_triple]
  set r := Real.sqrt (x * x + y * y + z * z) with hrdef
  have hrr : r * r = x * x + y * y + z * z := Real.mul_self_sqrt (sum_sq_nonneg x y z)
  have h : x * (M / r) * (x * (M / r)) + y * (M / r) * (y * (M / r)) +
      z * (M / r) * (z * (M / r)) = (x * x + y * y + z * z) * (M / r) * (M / r) := by ring
  rw [h, ← hrr]
  have h2 : r * r * (M / r) * (M / r) = M * M := by
    field_simp
    ring
  rw [h2, Real.sqrt_mul_self hM]

theorem scale_branch_ge (x y z M : ℝ) (hM : minAllowed ≤ M)
    (hr : 0 < Real.sqrt (x * x + y * y + z * z)) :
    minAllowed ≤ norm3 (x * (M / Real.sqrt (x * x + y * y + z * z)),
      y * (M / Real.sqrt (x * x + y * y + z * z)),
      z * (M / Real.sqrt (x * x + y * y + z * z))) := by
  rw [scale_norm x y z M (le_trans minAllowed_nonneg hM) hr]
  exact hM

/-- Every branch of the per-point rescale leaves the point at 3D radius at
least minAllowed. -/
theorem pushPoint_norm (gf ef : ℝ) (anm : Bool) (nm eqT nT neT : ℝ)
    (rngA rngU rngP : ℕ → ℝ) (i : ℕ) (p : Point) :
    minAllowed ≤ norm3 (pushPoint gf ef anm nm eqT nT neT rngA rngU rngP i p) := by
  obtain ⟨x, y, z⟩ := p
  have hs3 := sum_sq_nonneg x y z
  simp only [pushPoint]
  set ft : ℝ × ℝ :=
    (if anm = true then
      if |z| ≤ eqT ∧ Real.sqrt (x * x + y * y + z * z) ≤ neT then
        ((if |z| ≤ eqT then ef else gf) * nm, max minAllowed neT)
      else if ¬ (|z| ≤ eqT) ∧ Real.sqrt (x * x + y * y + z * z) ≤ nT then
        ((if |z| ≤ eqT then ef else gf) * nm, max minAllowed nT)
      else ((if |z| ≤ eqT then ef else gf), minAllowed)
    else ((if |z| ≤ eqT then ef else gf), minAllowed)) with hft
  have hft2 : minAllowed ≤ ft.2 := by
    rw [hft]
    split_ifs <;> simp [le_max_left]
  by_cases hA : anm = true
  · rw [if_pos hA]
    by_cases hE : Real.sqrt (x * x + y * y + z * z) ≤ EPS
    · rw [if_pos hE]
      rw [reseed_planar_norm _ _ (le_trans minAllowed_nonneg
        (le_trans hft2 (le_max_left _ _)))]
      exact le_trans hft2 (le_max_left _ _)
    · rw [if_neg hE]
      exact scale_branch_ge x y z _ (le_trans hft2 (le_max_left _ _))
        (lt_trans EPS_pos (not_le.mp hE))
  · rw [if_neg hA]
    by_cases hXY : Real.sqrt (x * x + y * y) ≤ EPS
    · rw [if_pos hXY]
      by_cases hE : Real.sqrt (x * x + y * y + z * z) ≤ EPS
      · rw [if_pos hE]
        rw [reseed_sphere_norm _ _ _ minAllowed_nonneg]
      · rw [if_neg hE]
        exact scale_branch_ge x y z _ (le_max_left _ _)
          (lt_trans EPS_pos (not_le.mp hE))
    · rw [if_neg hXY]
      have hle : Real.sqrt (x * x + y * y) ≤ Real.sqrt (x * x + y * y + z * z) := by
        apply Real.sqrt_le_sqrt
        nlinarith [mul_self_nonneg z]
      exact scale_branch_ge x y z _ (le_max_left _ _)
        (lt_of_lt_of_le (lt_trans EPS_pos (not_le.mp hXY)) hle)

theorem mem_pushList (f : ℕ → Point → Point) :
    ∀ (i : ℕ) (ps : List Point) (q : Point), q ∈ pushList f i ps →
      ∃ j p, p ∈ ps ∧ q = f j p := by
  intro i ps
  induction ps generalizing i with
  | nil => intro q hq; simp [pushList] at hq
  | cons p rest ih =>
    intro q hq
    rw [pushList] at hq
    rcases List.mem_cons.mp hq with h | h
    · exact ⟨i, p, List.mem_cons_self _ _, h⟩
    · obtain ⟨j, pp, hpp, he⟩ := ih (i + 1) q h
      exact ⟨j, pp, List.mem_cons_of_mem _ hpp, he⟩

theorem pushList_getD (f : ℕ → Point → Point) :
    ∀ (i : ℕ) (ps : List Point) (j : ℕ) (d : Point), j < ps.length →
      (pushList f i ps).getD j d = f (i + j) (ps.getD j d) := by
  intro i ps
  induction ps generalizing i with
  | nil => intro j d h; simp at h
  | cons p rest ih =>
    intro j d h
    cases j with
    | zero => simp [pushList]
    | succ jj =>
      rw [pushList]
      simp only [List.getD_cons_succ]
      rw [ih (i + 1) jj d (by simpa using Nat.lt_of_succ_lt_succ h)]
      congr 1
      omega

/-- C1: every point of the buffer ends at distance at least
NUCLEUS_RADIUS + ELECTRON_MIN_GAP = 24 from the origin after
pushElectronsOutward runs, for every choice of factors, near-nucleus mode,
thresholds and random draws, hence in every branch (equatorial or not,
near-nucleus mode, and reseeds from the origin). -/
theorem c1_pushElectronsOutward_min_radius (gf ef : ℝ) (anm : Bool) (nm : ℝ)
    (ntp netp : Option ℝ) (rngA rngU rngP : ℕ → ℝ) (positions : List Point) (q : Point)
    (hq : q ∈ pushElectronsOutward gf ef anm nm ntp netp rngA rngU rngP positions) :
    NUCLEUS_RADIUS + ELECTRON_MIN_GAP ≤ norm3 q := by
  simp only [pushElectronsOutward] at hq
  obtain ⟨j, p, _, rfl⟩ := mem_pushList _ _ _ _ hq
  exact pushPoint_norm _ _ _ _ _ _ _ _ _ _ _ _

/-- Every branch of pushPoint that is reached by a point farther than EPS from
the origin multiplies the three coordinates by one common positive scalar. -/
theorem pushPoint_scale (gf ef : ℝ) (anm : Bool) (nm eqT nT neT : ℝ)
    (rngA rngU rngP : ℕ → ℝ) (i : ℕ) (x y z : ℝ)
    (hfar : EPS < Real.sqrt (x * x + y * y + z * z)) :
    ∃ s : ℝ, 0 < s ∧
      pushPoint gf ef anm nm eqT nT neT rngA rngU rngP i (x, y, z) = (x * s, y * s, z * s) := by
  have hr : (0:ℝ) < Real.sqrt (x * x + y * y + z * z) := lt_trans EPS_pos hfar
  simp only [pushPoint]
  set ft : ℝ × ℝ :=
    (if anm = true then
      if |z| ≤ eqT ∧ Real.sqrt (x * x + y * y + z * z) ≤ neT then
        ((if |z| ≤ eqT then ef else gf) * nm, max minAllowed neT)
      else if ¬ (|z| ≤ eqT) ∧ Real.sqrt (x * x + y * y + z * z) ≤ nT then
        ((if |z| ≤ eqT then ef else gf) * nm, max minAllowed nT)
      else ((if |z| ≤ eqT then ef else gf), minAllowed)
    else ((if |z| ≤ eqT then ef else gf), minAllowed)) with hft
  have hft2 : minAllowed ≤ ft.2 := by
    rw [hft]
    split_ifs <;> simp [le_max_left]
  by_cases hA : anm = true
  · rw [if_pos hA, if_neg (not_le.mpr hfar)]
    exact ⟨max ft.2 (Real.sqrt (x * x + y * y + z * z) * ft.1) /
      Real.sqrt (x * x + y * y + z * z),
      div_pos (lt_of_lt_of_le minAllowed_pos (le_trans hft2 (le_max_left _ _))) hr, rfl⟩
  · rw [if_neg hA]
    by_cases hXY : Real.sqrt (x * x + y * y) ≤ EPS
    · rw [if_pos hXY, if_neg (not_le.mpr hfar)]
      exact ⟨max minAllowed (Real.sqrt (x * x + y * y + z * z) * ft.1) /
        Real.sqrt (x * x + y * y + z * z),
        div_pos (lt_of_lt_of_le minAllowed_pos (le_max_left _ _)) hr, rfl⟩
    · rw [if_neg hXY]
      exact ⟨max minAllowed (Real.sqrt (x * x + y * y + z * z) * ft.1) /
        Real.sqrt (x * x + y * y + z * z),
        div_pos (lt_of_lt_of_le minAllowed_pos (le_max_left _ _)) hr, rfl⟩

/-- C9 (amended): pushElectronsOutward multiplies every point farther than
EPS = 1e-6 from the origin by one common positive scalar (preserving its
direction); only points within EPS of the origin, not only the exact origin,
are re-seeded at a random direction. -/
theorem c9_direction_preserved_beyond_eps (gf ef : ℝ) (anm : Bool) (nm : ℝ)
    (ntp netp : Option ℝ) (rngA rngU rngP : ℕ → ℝ) (positions : List Point) (i : ℕ)
    (hi : i < positions.length)
    (hfar : EPS < norm3 (positions.getD i (0, 0, 0))) :
    ∃ s : ℝ, 0 < s ∧
      (pushElectronsOutward gf ef anm nm ntp netp rngA rngU rngP positions).getD i (0, 0, 0) =
        ((positions.getD i (0, 0, 0)).1 * s, (positions.getD i (0, 0, 0)).2.1 * s,
          (positions.getD i (0, 0, 0)).2.2 * s) := by
  simp only [pushElectronsOutward]
  rw [pushList_getD _ 0 positions i (0, 0, 0) hi]
  generalize positions.getD i (0, 0, 0) = p at hfar ⊢
  obtain ⟨x, y, z⟩ := p
  rw [norm3_triple] at hfar
  exact pushPoint_scale _ _ _ _ _ _ _ _ _ _ _ x y z hfar

theorem percentile_singleton (a : ℝ) (p : ℝ) (hp : 0 ≤ p) (hp1 : p < 1) :
    percentile [a] p = a := by
  unfold percentile
  have hfl : ⌊p * ((1:ℕ) : ℝ)⌋ = 0 := by
    rw [Int.floor_eq_zero_iff]
    constructor
    · simpa using hp
    · simpa using hp1
  simp [List.insertionSort, List.orderedInsert, hfl]

/-- Concrete run of pushElectronsOutward on the one-point buffer [(30,0,0)]
with the default call parameters: the point is equatorial (eqThreshold = 1),
so it is rescaled by EQ_RADIAL_PUSH = 1.35 to (40.5, 0, 0). -/
theorem pushEval30 :
    pushElectronsOutward GLOBAL_RADIAL_PUSH EQ_RADIAL_PUSH false NEAR_NUCLEAR_PUSH_MULT
      none none (fun _ => 0) (fun _ => 0) (fun _ => 0) [((30:ℝ), 0, 0)] =
      [((40.5:ℝ), 0, 0)] := by
  have hp45 : percentile [(0:ℝ)] (4/5) = 0 :=
    percentile_singleton 0 (4/5) (by norm_num) (by norm_num)
  simp only [pushElectronsOutward, pushList]
  norm_num [hp45]
  simp only [pushPoint]
  have h900 : Real.sqrt 900 = 30 := by
    rw [show (900:ℝ) = 30 ^ 2 by norm_num, Real.sqrt_sq (by norm_num : (0:ℝ) ≤ 30)]
  norm_num [h900, EPS, max_def, hp45, minAllowed_eq, GLOBAL_RADIAL_PUSH, EQ_RADIAL_PUSH,
    NEAR_NUCLEAR_PUSH_MULT]

/-- Concrete run of pushElectronsOutward on the one-point buffer [(0,0,1e-7)]:
the point is within EPS of the origin, so it is re-seeded; with unit draws 1/2
(giving arccos 0 = pi/2) and 0 the output is (24, 0, 0). -/
theorem pushEvalTiny :
    pushElectronsOutward GLOBAL_RADIAL_PUSH EQ_RADIAL_PUSH false NEAR_NUCLEAR_PUSH_MULT
      none none (fun _ => 0) (fun _ => (1/2:ℝ)) (fun _ => 0) [((0:ℝ), 0, 1e-7)] =
      [((24:ℝ), 0, 0)] := by
  have hp : percentile [(1e-7:ℝ)] (4/5) = 1e-7 :=
    percentile_singleton _ _ (by norm_num) (by norm_num)
  have hs0 : Real.sqrt ((0:ℝ) * 0 + 0 * 0) = 0 := by norm_num
  have hs14 : Real.sqrt ((0:ℝ) * 0 + 0 * 0 + 1e-7 * 1e-7) = 1e-7 := by
    rw [show (0:ℝ) * 0 + 0 * 0 + 1e-7 * 1e-7 = (1e-7:ℝ) ^ 2 by norm_num,
      Real.sqrt_sq (by norm_num : (0:ℝ) ≤ 1e-7)]
  have hbig : Real.sqrt (100000000000000:ℝ) = 10000000 := by
    rw [show (100000000000000:ℝ) = (10000000:ℝ) ^ 2 by norm_num,
      Real.sqrt_sq (by norm_num : (0:ℝ) ≤ 10000000)]
  simp only [pushElectronsOutward, pushList]
  norm_num [hp]
  simp only [pushPoint]
  norm_num [hs0, hs14, hbig, EPS, randRange, Real.arccos_zero, Real.sin_pi_div_two,
    Real.cos_pi_div_two, minAllowed_eq, max_def, hp, GLOBAL_RADIAL_PUSH, EQ_RADIAL_PUSH,
    NEAR_NUCLEAR_PUSH_MULT]

/-- Witness for C1 at the concrete buffer [(30,0,0)]: the output point
(40.5, 0, 0) is in the pushed buffer and lies at distance at least 24. -/
theorem c1_witness :
    ((40.5:ℝ), (0:ℝ), (0:ℝ)) ∈ pushElectronsOutward GLOBAL_RADIAL_PUSH EQ_RADIAL_PUSH
      false NEAR_NUCLEAR_PUSH_MULT none none (fun _ => 0) (fun _ => 0) (fun _ => 0)
      [((30:ℝ), 0, 0)] ∧
    NUCLEUS_RADIUS + ELECTRON_MIN_GAP ≤ norm3 ((40.5:ℝ), 0, 0) := by
  have hm : ((40.5:ℝ), (0:ℝ), (0:ℝ)) ∈ pushElectronsOutward GLOBAL_RADIAL_PUSH
      EQ_RADIAL_PUSH false NEAR_NUCLEAR_PUSH_MULT none none (fun _ => 0) (fun _ => 0)
      (fun _ => 0) [((30:ℝ), 0, 0)] := by
    rw [pushEval30]
    exact List.mem_singleton_self _
  exact ⟨hm, c1_pushElectronsOutward_min_radius _ _ _ _ _ _ _ _ _ _ _ hm⟩

/-- Counterexample for C9 as stated: the buffer [(0,0,1e-7)] holds a point
that is not the exact origin, yet pushElectronsOutward re-seeds it at a random
direction (the source re-seeds every point with r3D at most EPS = 1e-6, not
only the exact origin): with unit draws 1/2 and 0 the output point is
(24, 0, 0), which is no positive scalar multiple of (0, 0, 1e-7). -/
theorem c9_counterexample :
    ((0:ℝ), (0:ℝ), (1e-7:ℝ)) ≠ ((0:ℝ), (0:ℝ), (0:ℝ)) ∧
    pushElectronsOutward GLOBAL_RADIAL_PUSH EQ_RADIAL_PUSH false NEAR_NUCLEAR_PUSH_MULT
      none none (fun _ => 0) (fun _ => (1/2:ℝ)) (fun _ => 0) [((0:ℝ), 0, 1e-7)] =
      [((24:ℝ), 0, 0)] ∧
    ∀ s : ℝ, 0 < s → ((24:ℝ), (0:ℝ), (0:ℝ)) ≠ ((0:ℝ) * s, (0:ℝ) * s, (1e-7:ℝ) * s) := by
  refine ⟨?_, pushEvalTiny, ?_⟩
  · simp only [ne_eq, Prod.mk.injEq, not_and]
    intro _ _
    norm_num
  · intro s hs h
    have h1 := congrArg Prod.fst h
    norm_num at h1

/-- Witness for the amended C9 at the concrete buffer [(30,0,0)]: the point at
index 0 is farther than EPS from the origin, so the pushed point is a positive
scalar multiple of it. -/
theorem c9_witness :
    (0 < ([((30:ℝ), 0, 0)] : List Point).length) ∧
    EPS < norm3 (([((30:ℝ), 0, 0)] : List Point).getD 0 (0, 0, 0)) ∧
    (∃ s : ℝ, 0 < s ∧
      (pushElectronsOutward GLOBAL_RADIAL_PUSH EQ_RADIAL_PUSH false NEAR_NUCLEAR_PUSH_MULT
          none none (fun _ => 0) (fun _ => 0) (fun _ => 0)
          [((30:ℝ), 0, 0)]).getD 0 (0, 0, 0) =
        ((([((30:ℝ), 0, 0)] : List Point).getD 0 (0, 0, 0)).1 * s,
          (([((30:ℝ), 0, 0)] : List Point).getD 0 (0, 0, 0)).2.1 * s,
          (([((30:ℝ), 0, 0)] : List Point).getD 0 (0, 0, 0)).2.2 * s)) := by
  have hlen : (0:ℕ) < ([((30:ℝ), 0, 0)] : List Point).length := by norm_num
  have hfar : EPS < norm3 (([((30:ℝ), 0, 0)] : List Point).getD 0 (0, 0, 0)) := by
    simp only [List.getD_cons_zero]
    rw [norm3_triple]
    rw [show (30:ℝ) * 30 + 0 * 0 + 0 * 0 = 30 ^ 2 by norm_num,
      Real.sqrt_sq (by norm_num : (0:ℝ) ≤ 30)]
    norm_num [EPS]
  exact ⟨hlen, hfar, c9_direction_preserved_beyond_eps GLOBAL_RADIAL_PUSH EQ_RADIAL_PUSH
    false NEAR_NUCLEAR_PUSH_MULT none none (fun _ => 0) (fun _ => 0) (fun _ => 0)
    [((30:ℝ), 0, 0)] 0 hlen hfar⟩

/-- State owned by a sampling session: the positions buffer, the parallel
sizes buffer, and sampleCount.  In the source positions is a preallocated
Float32Array whose only writes happen at index sampleCount*3, so the buffer is
modelled as the list of written points (sampleCount = number of writes). -/
structure SamplerState where
  positions : List Point
  sizes : List ℝ
  sampleCount : ℕ

/-- One accepted sample (lines 5138-5143): write the point and the electron
size at index sampleCount, then increment sampleCount. -/
def SamplerState.push (st : SamplerState) (p : Point) (electronSize : ℝ) : SamplerState :=
  { positions := st.positions ++ [p], sizes := st.sizes ++ [electronSize],
    sampleCount := st.sampleCount + 1 }

/-- Outcome of one execution of the inner function chunk() of
sampleOrbitalChunked: a silent abort on session-id mismatch (no callback), a
reschedule via setTimeout (lines 5170-5172), or completion with onDone
invoked (lines 5162-5165, 5175-5177). -/
inductive ChunkResult
  | aborted
  | rescheduled (st : SamplerState)
  | done (st : SamplerState)

/-- The rejection-sampling while loop of one chunk (lines 5106-5144).  The
per-attempt work (radius draw, angular sub-attempts) is the function
attempt : attempt index -> Option Point; attemptOfRng below instantiates it
from the source's arithmetic.  The loop re-checks the captured session id
against the current one before every attempt (line 5107) and bails out of the
whole chunk on mismatch (modelled by the none result); within one synchronous
chunk currentId cannot change, so runChunk below never takes that branch
after its own top check passes. -/
noncomputable def chunkLoop (attempt : ℕ → Option Point) (electronSize : ℝ)
    (stopIndex budget samplingId currentId : ℕ) (attempts : ℕ) (st : SamplerState) :
    Option (ℕ × SamplerState) :=
  if hguard : st.sampleCount < stopIndex ∧ attempts < budget then
    if samplingId = currentId then
      match attempt attempts with
      | some p => chunkLoop attempt electronSize stopIndex budget samplingId currentId
          (attempts + 1) (st.push p electronSize)
      | none => chunkLoop attempt electronSize stopIndex budget samplingId currentId
          (attempts + 1) st
    else none
  else some (attempts, st)
termination_by budget - attempts
decreasing_by
  all_goals omega

/-- One isotropic uniform-in-volume fallback point (lines 5150-5158): the
stream d supplies the four unit draws of the slot, in source order (radius
draw, conditional radius redraw, cos-theta draw, phi draw). -/
noncomputable def fallbackPoint (n l : ℕ) (d : ℕ → ℝ) : Point :=
  let rMax := max 1 ((n : ℝ) * (n : ℝ) * a0 * 1.8)
  let rr0 := rMax * (d 0) ^ ((1:ℝ)/3) * radialScale (l : ℤ)
  let rr := if rr0 < minAllowed then minAllowed + (rMax - minAllowed) * (d 1) ^ ((1:ℝ)/3)
    else rr0
  let theta2 := Real.arccos (randRange (-1) 1 (d 2))
  let phi2 := randRange 0 (2 * Real.pi) (d 3)
  (rr * Real.sin theta2 * Real.cos phi2, rr * Real.sin theta2 * Real.sin phi2,
    rr * Real.cos theta2)

/-- The fallback fill (lines 5148-5161): every slot from sampleCount up to
numSamples-1 gets a fallback point, and sampleCount becomes numSamples. -/
noncomputable def fallbackFill (n l : ℕ) (electronSize : ℝ) (rngF : ℕ → ℕ → ℝ)
    (numSamples : ℕ) (st : SamplerState) : SamplerState :=
  { positions := st.positions ++ (List.range (numSamples - st.sampleCount)).map
      (fun j => fallbackPoint n l (rngF (st.sampleCount + j))),
    sizes := st.sizes ++ (List.range (numSamples - st.sampleCount)).map
      (fun _ => electronSize),
    sampleCount := numSamples }

/-- One execution of chunk() (lines 5099-5178): top session-id check
(line 5100), the attempt loop, then either the fallback fill plus onDone when
the budget was exhausted with zero progress (lines 5146-5166), a reschedule
(after one more session-id check, lines 5168-5172), or onDone on completion. -/
noncomputable def runChunk (attempt : ℕ → Option Point) (n l : ℕ) (electronSize : ℝ)
    (rngF : ℕ → ℕ → ℝ) (samplingId currentId numSamples : ℕ) (st : SamplerState) :
    ChunkResult :=
  if samplingId ≠ currentId then .aborted
  else
    let stopIndex := min numSamples (st.sampleCount + CHUNK_SAMPLES)
    let startCount := st.sampleCount
    match chunkLoop attempt electronSize stopIndex ATTEMPTS_PER_CHUNK samplingId currentId
        0 st with
    | none => .aborted
    | some (attempts, st2) =>
      if st2.sampleCount < numSamples then
        if ATTEMPTS_PER_CHUNK ≤ attempts ∧ st2.sampleCount = startCount then
          .done (fallbackFill n l electronSize rngF numSamples st2)
        else if samplingId ≠ currentId then .aborted
        else .rescheduled st2
      else .done st2

/-- The angular sub-attempt loop of one attempt (lines 5121-5130): up to 20
tries; try j consumes draws 3j, 3j+1, 3j+2 of the attempt's stream (offset by
the k draws the radius took). -/
noncomputable def angularTriesFrom (l : ℕ) (m : ℤ) (maxAngular : ℝ) (rng : ℕ → ℝ)
    (k : ℕ) : ℕ → ℕ → Option (ℝ × ℝ)
  | _, 0 => none
  | j, fuel + 1 =>
    let cosT := randRange (-1) 1 (rng (k + 3 * j))
    let thetaS := Real.arccos cosT
    let phiS := randRange 0 (2 * Real.pi) (rng (k + 3 * j + 1))
    let ang := angularProb thetaS phiS l m
    if rng (k + 3 * j + 2) < ang / maxAngular then some (thetaS, phiS)
    else angularTriesFrom l m maxAngular rng k (j + 1) fuel

/-- One rejection-sampling attempt (lines 5110-5136): draw k exponentials,
reject if the radius is below minR, otherwise run the angular loop and
convert the accepted draw to Cartesian coordinates. -/
noncomputable def attemptOfRng (n l : ℕ) (m : ℤ) (maxAngular : ℝ) (rng : ℕ → ℝ) :
    Option Point :=
  let k := kOf l
  let sumExp := ∑ i ∈ Finset.range k, expDraw (rng i)
  let r := thetaScale n * sumExp * radialScale (l : ℤ)
  if r < minAllowed then none
  else
    match angularTriesFrom l m maxAngular rng k 0 20 with
    | none => none
    | some tp =>
      some (r * Real.sin tp.1 * Real.cos tp.2, r * Real.sin tp.1 * Real.sin tp.2,
        r * Real.cos tp.1)

theorem radialLScale_pos (l : ℤ) : 0 < radialLScale l := by
  unfold radialLScale
  split_ifs
  · norm_num
  · have : (0.6:ℚ) ≤ max 0.6 (1 - 0.06 * (l : ℚ)) := le_max_left _ _
    linarith

theorem radialLScale_le_one (l : ℤ) : radialLScale l ≤ 1 := by
  unfold radialLScale
  split_ifs with h
  · norm_num
  · have hl : (1:ℚ) ≤ (l : ℚ) := by exact_mod_cast (by omega : (1:ℤ) ≤ l)
    apply max_le (by norm_num)
    linarith

theorem radialScale_pos (l : ℤ) : (0:ℝ) < radialScale l := by
  unfold radialScale
  have h := radialLScale_pos l
  have : (0:ℚ) < radialLScale l * ELECTRON_DISTANCE_MULTIPLIER := by
    have : (0:ℚ) < ELECTRON_DISTANCE_MULTIPLIER := by norm_num [ELECTRON_DISTANCE_MULTIPLIER]
    positivity
  exact_mod_cast this

theorem radialScale_le (l : ℤ) : radialScale l ≤ 1.6 := by
  unfold radialScale
  have h := radialLScale_le_one l
  have h1 : radialLScale l * ELECTRON_DISTANCE_MULTIPLIER ≤ 1.6 := by
    have h2 : (0:ℚ) ≤ radialLScale l := le_of_lt (radialLScale_pos l)
    norm_num [ELECTRON_DISTANCE_MULTIPLIER]
    nlinarith
  have h3 : ((radialLScale l * ELECTRON_DISTANCE_MULTIPLIER : ℚ) : ℝ) ≤ ((1.6:ℚ) : ℝ) := by
    exact_mod_cast h1
  calc ((radialLScale l * ELECTRON_DISTANCE_MULTIPLIER : ℚ) : ℝ) ≤ ((1.6:ℚ) : ℝ) := h3
    _ = 1.6 := by norm_num

/-- The fallback point's distance from the origin is bounded by 1.6 times the
n-dependent cutoff rMax = max(1, n^2 * a0 * 1.8). -/
theorem fallbackPoint_norm_le (n l : ℕ) (d : ℕ → ℝ) (hn : 1 ≤ n)
    (h0 : 0 ≤ d 0) (h01 : d 0 < 1) (h1 : 0 ≤ d 1) (h11 : d 1 < 1) :
    norm3 (fallbackPoint n l d) ≤ 1.6 * max 1 ((n : ℝ) * (n : ℝ) * a0 * 1.8) := by
  have hrs0 := radialScale_pos (l : ℤ)
  have hrs1 := radialScale_le (l : ℤ)
  set rMax := max 1 ((n : ℝ) * (n : ℝ) * a0 * 1.8) with hrM
  have hrM1 : (1:ℝ) ≤ rMax := le_max_left _ _
  have hrM24 : minAllowed ≤ rMax := by
    have hn1 : (1:ℝ) ≤ (n : ℝ) := by exact_mod_cast hn
    have h72 : (72:ℝ) ≤ (n : ℝ) * (n : ℝ) * a0 * 1.8 := by
      unfold a0
      nlinarith
    have hstep : minAllowed ≤ (n : ℝ) * (n : ℝ) * a0 * 1.8 := by
      have := minAllowed_eq
      linarith
    rw [hrM]
    exact le_trans hstep (le_max_right _ _)
  have hu0 : (0:ℝ) ≤ (d 0) ^ ((1:ℝ)/3) := Real.rpow_nonneg h0 _
  have hu1 : (d 0) ^ ((1:ℝ)/3) ≤ 1 := Real.rpow_le_one h0 (le_of_lt h01) (by norm_num)
  have hv0 : (0:ℝ) ≤ (d 1) ^ ((1:ℝ)/3) := Real.rpow_nonneg h1 _
  have hv1 : (d 1) ^ ((1:ℝ)/3) ≤ 1 := Real.rpow_le_one h1 (le_of_lt h11) (by norm_num)
  unfold fallbackPoint
  rw [← hrM]
  set rr0 := rMax * (d 0) ^ ((1:ℝ)/3) * radialScale (l : ℤ) with hrr0
  set rr := if rr0 < minAllowed then minAllowed + (rMax - minAllowed) * (d 1) ^ ((1:ℝ)/3)
    else rr0 with hrr
  have hrrb : 0 ≤ rr ∧ rr ≤ 1.6 * rMax := by
    rw [hrr]
    split_ifs with hc
    · constructor
      · have h24 : (0:ℝ) ≤ minAllowed := minAllowed_nonneg
        have hterm : (0:ℝ) ≤ (rMax - minAllowed) * (d 1) ^ ((1:ℝ)/3) :=
          mul_nonneg (by linarith) hv0
        linarith
      · have : (rMax - minAllowed) * (d 1) ^ ((1:ℝ)/3) ≤ rMax - minAllowed := by
          nlinarith
        nlinarith
    · constructor
      · rw [hrr0]; positivity
      · rw [hrr0]
        have hrMnn : (0:ℝ) ≤ rMax := by linarith
        have s1 : rMax * (d 0) ^ ((1:ℝ)/3) * radialScale (l : ℤ) ≤
            rMax * 1 * radialScale (l : ℤ) :=
          mul_le_mul_of_nonneg_right (mul_le_mul_of_nonneg_left hu1 hrMnn) (le_of_lt hrs0)
        have s2 : rMax * 1 * radialScale (l : ℤ) ≤ rMax * 1.6 := by
          rw [mul_one]
          exact mul_le_mul_of_nonneg_left hrs1 hrMnn
        calc rMax * (d 0) ^ ((1:ℝ)/3) * radialScale (l : ℤ) ≤
            rMax * 1 * radialScale (l : ℤ) := s1
          _ ≤ rMax * 1.6 := s2
          _ = 1.6 * rMax := by ring
  rw [reseed_sphere_norm _ _ _ hrrb.1]
  exact hrrb.2

/-- A loop whose every attempt from the current index on rejects runs its full
budget without touching the state. -/
theorem chunkLoop_all_none (attempt : ℕ → Option Point) (es : ℝ)
    (stopIndex budget sid : ℕ) :
    ∀ (fuel attempts : ℕ) (st : SamplerState), budget - attempts = fuel →
      attempts ≤ budget → st.sampleCount < stopIndex →
      (∀ i, attempts ≤ i → attempt i = none) →
      chunkLoop attempt es stopIndex budget sid sid attempts st = some (budget, st) := by
  intro fuel
  induction fuel with
  | zero =>
    intro attempts st hf hle hsc _
    have hab : attempts = budget := by omega
    rw [chunkLoop, dif_neg (by omega)]
    rw [hab]
  | succ f ih =>
    intro attempts st hf hle hsc hnone
    have hlt : attempts < budget := by omega
    rw [chunkLoop, dif_pos ⟨hsc, hlt⟩, if_pos rfl, hnone attempts (le_refl _)]
    exact ih (attempts + 1) st (by omega) (by omega) hsc
      (fun i hi => hnone i (by omega))

/-- The loop never pushes sampleCount beyond stopIndex. -/
theorem chunkLoop_count_le (attempt : ℕ → Option Point) (es : ℝ)
    (stopIndex budget sid cur : ℕ) :
    ∀ (fuel attempts : ℕ) (st : SamplerState) (a2 : ℕ) (st2 : SamplerState),
      budget - attempts = fuel →
      chunkLoop attempt es stopIndex budget sid cur attempts st = some (a2, st2) →
      st2.sampleCount ≤ max st.sampleCount stopIndex := by
  intro fuel
  induction fuel with
  | zero =>
    intro attempts st a2 st2 hf hc
    rw [chunkLoop, dif_neg (by omega)] at hc
    obtain ⟨h1, h2⟩ := Prod.mk.injEq .. ▸ Option.some.injEq .. ▸ hc
    subst h2
    exact le_max_left _ _
  | succ f ih =>
    intro attempts st a2 st2 hf hc
    rw [chunkLoop] at hc
    by_cases hg : st.sampleCount < stopIndex ∧ attempts < budget
    · rw [dif_pos hg] at hc
      by_cases hs : sid = cur
      · rw [if_pos hs] at hc
        cases ha : attempt attempts with
        | some p =>
          rw [ha] at hc
          have hrec := ih (attempts + 1) (st.push p es) a2 st2 (by omega) hc
          have hp : (st.push p es).sampleCount = st.sampleCount + 1 := rfl
          rw [hp, max_eq_right hg.1] at hrec
          exact le_trans hrec (le_max_right _ _)
        | none =>
          rw [ha] at hc
          exact ih (attempts + 1) st a2 st2 (by omega) hc
      · rw [if_neg hs] at hc
        exact absurd hc (by simp)
    · rw [dif_neg hg] at hc
      obtain ⟨h1, h2⟩ := Prod.mk.injEq .. ▸ Option.some.injEq .. ▸ hc
      subst h2
      exact le_max_left _ _

/-- A chunk never fills the buffer beyond the requested count. -/
theorem runChunk_count_le (attempt : ℕ → Option Point) (n l : ℕ) (es : ℝ)
    (rngF : ℕ → ℕ → ℝ) (sid cur numSamples : ℕ) (st : SamplerState)
    (h : st.sampleCount ≤ numSamples) :
    (∀ st2, runChunk attempt n l es rngF sid cur numSamples st =
      ChunkResult.rescheduled st2 → st2.sampleCount ≤ numSamples) ∧
    (∀ st2, runChunk attempt n l es rngF sid cur numSamples st =
      ChunkResult.done st2 → st2.sampleCount ≤ numSamples) := by
  by_cases hs : sid ≠ cur
  · rw [runChunk, if_pos hs]
    exact ⟨fun st2 hx => absurd hx (by simp), fun st2 hx => absurd hx (by simp)⟩
  · unfold runChunk
    rw [if_neg hs]
    cases hc : chunkLoop attempt es (min numSamples (st.sampleCount + CHUNK_SAMPLES))
        ATTEMPTS_PER_CHUNK sid cur 0 st with
    | none =>
      simp only [hc]
      exact ⟨fun st2 hx => absurd hx (by simp), fun st2 hx => absurd hx (by simp)⟩
    | some pair =>
      obtain ⟨a2, st2w⟩ := pair
      have hb := chunkLoop_count_le attempt es
        (min numSamples (st.sampleCount + CHUNK_SAMPLES)) ATTEMPTS_PER_CHUNK sid cur
        (ATTEMPTS_PER_CHUNK - 0) 0 st a2 st2w rfl hc
      have hb2 : st2w.sampleCount ≤ numSamples := by
        have hmx : max st.sampleCount (min numSamples (st.sampleCount + CHUNK_SAMPLES)) ≤
            numSamples := max_le h (min_le_left _ _)
        exact le_trans hb hmx
      simp only [hc]
      split_ifs with h1 h2
      · refine ⟨fun st2 hx => absurd hx (by simp), fun st2 hx => ?_⟩
        cases hx
        rfl
      · refine ⟨fun st2 hx => ?_, fun st2 hx => absurd hx (by simp)⟩
        cases hx
        exact hb2
      · refine ⟨fun st2 hx => absurd hx (by simp), fun st2 hx => ?_⟩
        cases hx
        exact hb2

/-- C2 (amended): when a chunk exhausts its ATTEMPTS_PER_CHUNK budget having
accepted no sample in that chunk (sampleCount still equals the chunk's
startCount), every remaining slot up to the requested count is filled with a
coarse isotropic uniform-in-volume fallback point whose distance from the
origin is at most 1.6 * max(1, n^2 * a0 * 1.8), and the session completes (the
chunk ends in the done outcome, which invokes onDone). -/
theorem c2_fallback_fills_and_completes (attempt : ℕ → Option Point) (n l : ℕ) (es : ℝ)
    (rngF : ℕ → ℕ → ℝ) (sid numSamples : ℕ) (st : SamplerState) (a2 : ℕ)
    (st2 : SamplerState)
    (hloop : chunkLoop attempt es (min numSamples (st.sampleCount + CHUNK_SAMPLES))
      ATTEMPTS_PER_CHUNK sid sid 0 st = some (a2, st2))
    (hbudget : ATTEMPTS_PER_CHUNK ≤ a2)
    (hnoprog : st2.sampleCount = st.sampleCount)
    (hleft : st2.sampleCount < numSamples)
    (hn : 1 ≤ n)
    (hrng : ∀ i j, 0 ≤ rngF i j ∧ rngF i j < 1) :
    runChunk attempt n l es rngF sid sid numSamples st =
      ChunkResult.done (fallbackFill n l es rngF numSamples st2) ∧
    (fallbackFill n l es rngF numSamples st2).sampleCount = numSamples ∧
    ∀ j < numSamples - st2.sampleCount,
      norm3 (fallbackPoint n l (rngF (st2.sampleCount + j))) ≤
        1.6 * max 1 ((n : ℝ) * (n : ℝ) * a0 * 1.8) := by
  refine ⟨?_, rfl, ?_⟩
  · rw [runChunk, if_neg (by simp)]
    simp only [hloop]
    rw [if_pos hleft, if_pos ⟨hbudget, hnoprog⟩]
  · intro j hj
    exact fallbackPoint_norm_le n l _ hn (hrng _ 0).1 (hrng _ 0).2 (hrng _ 1).1 (hrng _ 1).2

/-- Unit-draw stream of one accepting attempt at n=1, l=0, m=0: the three
exponential draws are exp(-1) (each contributing 1 to sumExp, so r = 96), the
cos-theta draw 1/2 gives theta = pi/2, phi = 0, and the acceptance draw 0 is
below angularProb / maxAngular. -/
noncomputable def rngAcc : ℕ → ℝ := fun i =>
  if i < 3 then Real.exp (-1) else if i = 3 then 1/2 else 0

theorem expDraw_exp_neg_one : expDraw (Real.exp (-1)) = 1 := by
  unfold expDraw
  rw [if_neg]
  · rw [Real.log_exp]; norm_num
  · push_neg
    have h1 : Real.exp 1 < 2.7182818286 := Real.exp_one_lt_d9
    have h2 : (0:ℝ) < Real.exp 1 := Real.exp_pos 1
    have h3 : Real.exp 1 < 1e12 := by linarith
    have h4 := one_div_lt_one_div_of_lt h2 h3
    rw [one_div, one_div] at h4
    rw [Real.exp_neg]
    norm_num
    linarith

/-- With the rngAcc draws, the genuine per-attempt sampler accepts and yields
the point (96, 0, 0). -/
theorem attemptOfRng_accepts :
    attemptOfRng 1 0 0 1 rngAcc = some ((96:ℝ), 0, 0) := by
  have hk : kOf 0 = 3 := by norm_num [kOf]
  have hsum : ∑ i ∈ Finset.range 3, expDraw (rngAcc i) = 3 := by
    rw [Finset.sum_range_succ, Finset.sum_range_succ, Finset.sum_range_succ,
      Finset.sum_range_zero]
    have h0 : rngAcc 0 = Real.exp (-1) := by norm_num [rngAcc]
    have h1 : rngAcc 1 = Real.exp (-1) := by norm_num [rngAcc]
    have h2 : rngAcc 2 = Real.exp (-1) := by norm_num [rngAcc]
    rw [h0, h1, h2, expDraw_exp_neg_one]
    norm_num
  have hrs : radialScale ((0:ℕ) : ℤ) = 1.6 := by
    norm_num [radialScale, radialLScale, ELECTRON_DISTANCE_MULTIPLIER]
  have hr : thetaScale 1 * (∑ i ∈ Finset.range 3, expDraw (rngAcc i)) *
      radialScale ((0:ℕ) : ℤ) = 96 := by
    rw [hsum, hrs]
    norm_num [thetaScale, a0]
  have hang : angularTriesFrom 0 0 1 rngAcc 3 0 20 = some (Real.pi / 2, 0) := by
    rw [angularTriesFrom]
    have hc : randRange (-1) 1 (rngAcc (3 + 3 * 0)) = 0 := by
      norm_num [rngAcc, randRange]
    have hp : randRange 0 (2 * Real.pi) (rngAcc (3 + 3 * 0 + 1)) = 0 := by
      norm_num [rngAcc, randRange]
    have ha : angularProb (Real.arccos 0) 0 0 0 = 1 + 1e-30 := by
      simp only [angularProb, Real.arccos_zero, Real.cos_pi_div_two]
      norm_num [associatedLegendre]
    rw [hc, hp, ha, if_pos]
    · rw [Real.arccos_zero]
    · have h5 : rngAcc (3 + 3 * 0 + 2) = 0 := by norm_num [rngAcc]
      rw [h5]
      norm_num
  simp only [attemptOfRng, hk, hr, hang]
  rw [if_neg (by norm_num [minAllowed_eq])]
  simp [Real.sin_pi_div_two, Real.cos_pi_div_two]

/-- With every unit draw equal to exp(-1/10), each attempt of the (n=1, l=0,
m=0) sampler draws sumExp = 3/10, giving the radius 20 * 0.3 * 1.6 = 9.6 < 24,
so the attempt is rejected before the angular stage. -/
theorem attemptOfRng_rejects (mA : ℝ) :
    attemptOfRng 1 0 0 mA (fun _ => Real.exp (-(1/10))) = none := by
  have hexp : expDraw (Real.exp (-(1/10))) = 1/10 := by
    unfold expDraw
    rw [if_neg]
    · rw [Real.log_exp]; norm_num
    · push_neg
      have h9 : (9:ℝ)/10 ≤ Real.exp (-(1/10)) := by
        have := Real.add_one_le_exp (-(1/10:ℝ))
        linarith
      norm_num
      linarith
  have hk : kOf 0 = 3 := by norm_num [kOf]
  simp only [attemptOfRng, hk, hexp]
  rw [if_pos]
  have hrs : radialScale ((0:ℕ) : ℤ) = 1.6 := by
    norm_num [radialScale, radialLScale, ELECTRON_DISTANCE_MULTIPLIER]
  rw [hrs]
  norm_num [thetaScale, a0, Finset.sum_const, Finset.card_range, minAllowed_eq]

/-- The attempt stream of the counterexample chunk: attempt 0 runs on the
accepting draws, every later attempt on the rejecting draws. -/
noncomputable def cexAttempt : ℕ → Option Point := fun i =>
  attemptOfRng 1 0 0 1 (if i = 0 then rngAcc else fun _ => Real.exp (-(1/10)))

theorem cexAttempt_zero : cexAttempt 0 = some ((96:ℝ), 0, 0) := by
  unfold cexAttempt
  rw [if_pos rfl]
  exact attemptOfRng_accepts

theorem cexAttempt_rest (i : ℕ) (hi : i ≠ 0) : cexAttempt i = none := by
  unfold cexAttempt
  rw [if_neg hi]
  exact attemptOfRng_rejects 1

/-- Evaluation of the rejection-sampling loop for the counterexample to C2 as
stated: attempt 0 accepts one point, every later attempt rejects, so the loop
exhausts the full budget having made progress. -/
theorem chunkLoop_one_accept :
    chunkLoop cexAttempt 1 2 ATTEMPTS_PER_CHUNK 1 1 0 ⟨[], [], 0⟩ =
      some (ATTEMPTS_PER_CHUNK, ⟨[((96:ℝ), 0, 0)], [1], 1⟩) := by
  rw [chunkLoop, dif_pos (⟨by norm_num, by norm_num [ATTEMPTS_PER_CHUNK]⟩ :
    (⟨[], [], 0⟩ : SamplerState).sampleCount < 2 ∧ 0 < ATTEMPTS_PER_CHUNK), if_pos rfl]
  have hst : SamplerState.push ⟨[], [], 0⟩ ((96:ℝ), 0, 0) 1 =
      (⟨[((96:ℝ), 0, 0)], [1], 1⟩ : SamplerState) := by
    simp [SamplerState.push]
  simp only [cexAttempt_zero, hst]
  exact chunkLoop_all_none _ _ _ _ _ (ATTEMPTS_PER_CHUNK - 1) 1 _ (by omega)
    (by norm_num [ATTEMPTS_PER_CHUNK]) (by simp [SamplerState.push])
    (fun i hi => cexAttempt_rest i (by omega))

/-- Counterexample to C2 as stated: with two samples requested, a chunk whose
20000-attempt budget is exhausted after accepting exactly one sample (the
attempts run the genuine per-attempt arithmetic on concrete unit draws) does
NOT fill the remaining slot with fallback points and does not complete: it
reschedules itself (ChunkResult.rescheduled) with sampleCount = 1 < 2.  The
fallback fill at lines 5147-5161 fires only when additionally
sampleCount === startCount, i.e. when the chunk made zero progress. -/
theorem c2_counterexample :
    chunkLoop cexAttempt 1 2 ATTEMPTS_PER_CHUNK 1 1 0 ⟨[], [], 0⟩ =
      some (ATTEMPTS_PER_CHUNK, ⟨[((96:ℝ), 0, 0)], [1], 1⟩) ∧
    runChunk cexAttempt 1 0 1 (fun _ _ => 0) 1 1 2 ⟨[], [], 0⟩ =
      ChunkResult.rescheduled ⟨[((96:ℝ), 0, 0)], [1], 1⟩ ∧
    (⟨[((96:ℝ), 0, 0)], [1], 1⟩ : SamplerState).sampleCount < 2 := by
  refine ⟨chunkLoop_one_accept, ?_, by norm_num⟩
  rw [runChunk, if_neg (by norm_num)]
  have hmin : min 2 ((⟨[], [], 0⟩ : SamplerState).sampleCount + CHUNK_SAMPLES) = 2 := by
    norm_num [CHUNK_SAMPLES]
  simp only [hmin, chunkLoop_one_accept]
  norm_num

/-- Witness for the amended C2: with the always-rejecting instantiated attempt
(attemptOfRng at n=1, l=0, m=0 with all unit draws exp(-1/10)) and two samples
requested, the chunk exhausts its budget with zero progress, and runChunk ends
done with the buffer fallback-filled to the requested count. -/
theorem c2_witness :
    chunkLoop (fun _ => attemptOfRng 1 0 0 1 (fun _ => Real.exp (-(1/10)))) 1
      (min 2 ((⟨[], [], 0⟩ : SamplerState).sampleCount + CHUNK_SAMPLES))
      ATTEMPTS_PER_CHUNK 1 1 0 ⟨[], [], 0⟩ =
      some (ATTEMPTS_PER_CHUNK, ⟨[], [], 0⟩) ∧
    (runChunk (fun _ => attemptOfRng 1 0 0 1 (fun _ => Real.exp (-(1/10)))) 1 0 1
        (fun _ _ => 0) 1 1 2 ⟨[], [], 0⟩ =
      ChunkResult.done (fallbackFill 1 0 1 (fun _ _ => 0) 2 ⟨[], [], 0⟩) ∧
      (fallbackFill 1 0 1 (fun _ _ => 0) 2 ⟨[], [], 0⟩).sampleCount = 2 ∧
      ∀ j < 2 - (⟨[], [], 0⟩ : SamplerState).sampleCount,
        norm3 (fallbackPoint 1 0 ((fun _ _ => (0:ℝ)) ((⟨[], [], 0⟩ :
          SamplerState).sampleCount + j))) ≤
          1.6 * max 1 (((1:ℕ) : ℝ) * ((1:ℕ) : ℝ) * a0 * 1.8)) := by
  have hloop : chunkLoop (fun _ => attemptOfRng 1 0 0 1 (fun _ => Real.exp (-(1/10)))) 1
      (min 2 ((⟨[], [], 0⟩ : SamplerState).sampleCount + CHUNK_SAMPLES))
      ATTEMPTS_PER_CHUNK 1 1 0 ⟨[], [], 0⟩ =
      some (ATTEMPTS_PER_CHUNK, ⟨[], [], 0⟩) :=
    chunkLoop_all_none _ _ _ _ _ ATTEMPTS_PER_CHUNK 0 _ (by omega) (by omega)
      (by norm_num [CHUNK_SAMPLES]) (fun i _ => attemptOfRng_rejects 1)
  exact ⟨hloop, c2_fallback_fills_and_completes
    (fun _ => attemptOfRng 1 0 0 1 (fun _ => Real.exp (-(1/10)))) 1 0 1 (fun _ _ => 0)
    1 2 ⟨[], [], 0⟩ ATTEMPTS_PER_CHUNK ⟨[], [], 0⟩ hloop (le_refl _) rfl (by norm_num)
    (le_refl _) (fun i j => ⟨le_refl 0, by norm_num⟩)⟩

/-- Global scheduler state: the monotone session counter currentSamplingId
(line 94, incremented at line 4857), the buffer of the active session (a new
session replaces it, lines 4865-4868), and the list of session ids whose
completion callback has run. -/
structure GlobalState where
  currentSamplingId : ℕ
  sampler : SamplerState
  doneCallbacks : List ℕ

/-- The discrete events of the cooperative single-threaded schedule: a new
session starting (createOrbitalFromUI lines 4857-4869), or one pending chunk
of the session that captured samplingId = sid running to its next yield. -/
inductive Event
  | newSession
  | chunk (sid : ℕ) (attempt : ℕ → Option Point) (n l : ℕ) (es : ℝ)
      (rngF : ℕ → ℕ → ℝ) (numSamples : ℕ)

/-- One scheduler step.  A chunk whose runChunk outcome is aborted changes
nothing and runs no callback; done appends the session id to the callback
record. -/
noncomputable def stepEv (g : GlobalState) : Event → GlobalState
  | .newSession =>
      { currentSamplingId := g.currentSamplingId + 1,
        sampler := ⟨[], [], 0⟩,
        doneCallbacks := g.doneCallbacks }
  | .chunk sid attempt n l es rngF numSamples =>
      match runChunk attempt n l es rngF sid g.currentSamplingId numSamples g.sampler with
      | .aborted => g
      | .rescheduled st2 => { g with sampler := st2 }
      | .done st2 => { g with sampler := st2, doneCallbacks := g.doneCallbacks ++ [sid] }

/-- A whole schedule is a fold of steps. -/
noncomputable def runTrace (g : GlobalState) : List Event → GlobalState
  | [] => g
  | ev :: rest => runTrace (stepEv g ev) rest

/-- The top check of chunk() (line 5100): a stale session id aborts before any
write and before the callback. -/
theorem runChunk_stale (attempt : ℕ → Option Point) (n l : ℕ) (es : ℝ)
    (rngF : ℕ → ℕ → ℝ) (sid cur numSamples : ℕ) (st : SamplerState) (h : sid ≠ cur) :
    runChunk attempt n l es rngF sid cur numSamples st = .aborted := by
  rw [runChunk, if_pos h]

theorem stepEv_stale (g : GlobalState) (sid : ℕ) (attempt : ℕ → Option Point) (n l : ℕ)
    (es : ℝ) (rngF : ℕ → ℕ → ℝ) (numSamples : ℕ) (h : sid ≠ g.currentSamplingId) :
    stepEv g (Event.chunk sid attempt n l es rngF numSamples) = g := by
  simp only [stepEv, runChunk_stale attempt n l es rngF sid g.currentSamplingId
    numSamples g.sampler h]

/-- A chunk can only reach the done outcome (and hence run its callback) when
its captured id equals the current session counter. -/
theorem runChunk_done_id (attempt : ℕ → Option Point) (n l : ℕ) (es : ℝ)
    (rngF : ℕ → ℕ → ℝ) (sid cur numSamples : ℕ) (st st2 : SamplerState)
    (h : runChunk attempt n l es rngF sid cur numSamples st = .done st2) : sid = cur := by
  by_contra hne
  rw [runChunk_stale attempt n l es rngF sid cur numSamples st hne] at h
  exact ChunkResult.noConfusion h

theorem stepEv_id_mono (g : GlobalState) (ev : Event) :
    g.currentSamplingId ≤ (stepEv g ev).currentSamplingId := by
  cases ev with
  | newSession => simp [stepEv]
  | chunk sid attempt n l es rngF numSamples =>
    simp only [stepEv]
    cases hr : runChunk attempt n l es rngF sid g.currentSamplingId numSamples g.sampler
    · exact le_refl _
    · exact le_refl _
    · exact le_refl _

theorem stepEv_done_preserve (g : GlobalState) (ev : Event) (sid1 : ℕ)
    (hlt : sid1 < g.currentSamplingId) (hmem : sid1 ∈ (stepEv g ev).doneCallbacks) :
    sid1 ∈ g.doneCallbacks := by
  cases ev with
  | newSession => exact hmem
  | chunk sid attempt n l es rngF numSamples =>
    revert hmem
    simp only [stepEv]
    cases hr : runChunk attempt n l es rngF sid g.currentSamplingId numSamples g.sampler with
    | aborted => exact id
    | rescheduled st2 => exact id
    | done st2 =>
      intro hmem
      have hid : sid = g.currentSamplingId :=
        runChunk_done_id attempt n l es rngF sid g.currentSamplingId numSamples
          g.sampler st2 hr
      rcases List.mem_append.mp hmem with h | h
      · exact h
      · exfalso
        have : sid1 = sid := by simpa using h
        omega

/-- C4: once the session counter has moved past sid1 (session S2 started while
a chunk of S1 = sid1 was still pending), no schedule continuation ever runs
S1's completion callback (sid1 enters doneCallbacks only if it was already
there), and every pending chunk of S1 is a complete no-op: it leaves the
global state, in particular S2's buffer, unchanged.  The mechanism is the
session-id re-check at the head of every chunk, which no-ops on mismatch. -/
theorem c4_superseded_session_silent (g : GlobalState) (sid1 : ℕ)
    (hstale : sid1 < g.currentSamplingId) (evs : List Event) :
    (sid1 ∈ (runTrace g evs).doneCallbacks → sid1 ∈ g.doneCallbacks) ∧
    (∀ attempt n l es rngF numSamples,
      stepEv (runTrace g evs) (Event.chunk sid1 attempt n l es rngF numSamples) =
        runTrace g evs) := by
  induction evs generalizing g with
  | nil =>
    refine ⟨id, ?_⟩
    intro attempt n l es rngF numSamples
    exact stepEv_stale _ _ _ _ _ _ _ _ (Nat.ne_of_lt hstale)
  | cons ev rest ih =>
    have hstale2 : sid1 < (stepEv g ev).currentSamplingId :=
      lt_of_lt_of_le hstale (stepEv_id_mono g ev)
    obtain ⟨ih1, ih2⟩ := ih (stepEv g ev) hstale2
    refine ⟨?_, ih2⟩
    intro hmem
    exact stepEv_done_preserve g ev sid1 hstale (ih1 hmem)

/-- Witness for C4: session 1 is superseded (counter at 2); after one further
newSession event its callback still cannot fire and its chunks are no-ops. -/
theorem c4_witness :
    (1:ℕ) < (⟨2, ⟨[], [], 0⟩, []⟩ : GlobalState).currentSamplingId ∧
    ((1:ℕ) ∈ (runTrace ⟨2, ⟨[], [], 0⟩, []⟩ [Event.newSession]).doneCallbacks →
      (1:ℕ) ∈ (⟨2, ⟨[], [], 0⟩, []⟩ : GlobalState).doneCallbacks) ∧
    (∀ attempt n l es rngF numSamples,
      stepEv (runTrace ⟨2, ⟨[], [], 0⟩, []⟩ [Event.newSession])
        (Event.chunk 1 attempt n l es rngF numSamples) =
        runTrace ⟨2, ⟨[], [], 0⟩, []⟩ [Event.newSession]) := by
  have h := c4_superseded_session_silent ⟨2, ⟨[], [], 0⟩, []⟩ 1 (by norm_num)
    [Event.newSession]
  exact ⟨by norm_num, h.1, h.2⟩

/-- The UI-state hash of line 4839.  The source builds the string
n|l|m|electronSize|numElectrons|orbitalMode from the clamped values; since
each numeric field renders injectively between separators, string equality is
field-wise equality, modelled by this structure.  orbitalMode is one of two
modes, modelled as a Bool. -/
structure UIHash where
  n : ℤ
  l : ℤ
  m : ℤ
  electronSize : ℚ
  numElectrons : ℤ
  completeMode : Bool
deriving DecidableEq

/-- The global state createOrbitalFromUI touches: the session counter, the
memoised UI hash, the positions allocation (bufSize = 3 * numElectrons floats,
none when positions is null), and the sample counters. -/
structure UIState where
  currentSamplingId : ℕ
  lastUIHash : Option UIHash
  bufSize : Option ℤ
  sampleCount : ℤ
  sampleTarget : ℤ
  sampling : Bool
deriving DecidableEq

/-- createOrbitalFromUI (lines 4787-4876), up to the point where the sampling
session is scheduled.  parseInt/parseFloat NaN results are modelled as none.
The source clamps n below 1 to 1 and l below 0 to 0 (lines 4799-4806) and
rejects only l >= n and |m| > l (lines 4836-4837); the numElectrons cap is at
lines 4815-4834; the memo-hash early return at lines 4839-4841; numElectrons
= 0 clears the buffers (lines 4843-4855); otherwise the counter is
incremented and a fresh buffer of numElectrons*3 floats is allocated
(lines 4857-4869). -/
def createOrbitalFromUI (nIn lIn mIn : Option ℤ) (sizeIn : Option ℚ) (numIn : Option ℤ)
    (completeMode : Bool) (st : UIState) : UIState :=
  let n : ℤ := match nIn with
    | none => 1
    | some v => if v < 1 then 1 else v
  let l : ℤ := match lIn with
    | none => 0
    | some v => if v < 0 then 0 else v
  let m : ℤ := match mIn with
    | none => 0
    | some v => v
  let electronSize : ℚ := match sizeIn with
    | none => 1.0
    | some v => if v ≤ 0 then 1.0 else v
  let numElectrons0 : ℤ := match numIn with
    | none => 0
    | some v => if v < 0 then 0 else v
  let numElectrons : ℤ :=
    if numElectrons0 > MAX_ELECTRONS then MAX_ELECTRONS else numElectrons0
  if l ≥ n then st
  else if |m| > l then st
  else
    let uiHash : UIHash := ⟨n, l, m, electronSize, numElectrons, completeMode⟩
    if some uiHash = st.lastUIHash then st
    else
      let st1 : UIState := { st with lastUIHash := some uiHash }
      if numElectrons = 0 then
        { st1 with bufSize := none, sampleCount := 0, sampleTarget := 0, sampling := false }
      else
        { st1 with
          currentSamplingId := st1.currentSamplingId + 1,
          bufSize := some (numElectrons * 3),
          sampleCount := 0,
          sampleTarget := numElectrons,
          sampling := true }

/-- Counterexample to C6 as stated: the request n = 0 (invalid: n < 1), l = 0,
m = 0 with 100 electrons is NOT rejected: the code clamps n to 1 (line 4800)
and proceeds, incrementing the session counter from 0 to 1 and allocating a
100*3-float buffer. -/
theorem c6_counterexample :
    ((0:ℤ) < 1) ∧
    (createOrbitalFromUI (some 0) (some 0) (some 0) (some 1) (some 100) false
      ⟨0, none, none, 0, 0, false⟩).currentSamplingId = 1 ∧
    (createOrbitalFromUI (some 0) (some 0) (some 0) (some 1) (some 100) false
      ⟨0, none, none, 0, 0, false⟩).bufSize = some 300 := by
  refine ⟨by norm_num, ?_, ?_⟩ <;> decide

/-- C6 (amended): after the NaN/range clamping of lines 4799-4818 (n below 1
becomes 1, l below 0 becomes 0, NaN m becomes 0), a request whose clamped
values still violate l < n or |m| <= l is rejected before a session starts:
the state is returned unchanged, so the session counter is not incremented
and no buffer is allocated or written.  Requests with n < 1 or l < 0 are
clamped rather than rejected (see the counterexample). -/
theorem c6_invalid_rejected_before_session (nIn lIn mIn : Option ℤ) (sizeIn : Option ℚ)
    (numIn : Option ℤ) (completeMode : Bool) (st : UIState)
    (hrej : (match lIn with | none => 0 | some v => if v < 0 then 0 else v) ≥
        (match nIn with | none => 1 | some v => if v < 1 then 1 else v) ∨
      |(match mIn with | none => 0 | some v => v)| >
        (match lIn with | none => 0 | some v => if v < 0 then 0 else v)) :
    createOrbitalFromUI nIn lIn mIn sizeIn numIn completeMode st = st := by
  unfold createOrbitalFromUI
  rcases hrej with h | h
  · rw [if_pos h]
  · by_cases h2 : (match lIn with | none => 0 | some v => if v < 0 then 0 else v) ≥
        (match nIn with | none => 1 | some v => if v < 1 then 1 else v)
    · rw [if_pos h2]
    · rw [if_neg h2, if_pos h]

/-- Witness for the amended C6: n = 2, l = 2 is rejected (l >= n) and the
state, counter included, is untouched. -/
theorem c6_witness :
    ((match some (2:ℤ) with | none => (0:ℤ) | some v => if v < 0 then 0 else v) ≥
        (match some (2:ℤ) with | none => (1:ℤ) | some v => if v < 1 then 1 else v) ∨
      |(match some (0:ℤ) with | none => (0:ℤ) | some v => v)| >
        (match some (2:ℤ) with | none => (0:ℤ) | some v => if v < 0 then 0 else v)) ∧
    createOrbitalFromUI (some 2) (some 2) (some 0) (some 1) (some 500) false
      ⟨7, none, some 30, 5, 10, true⟩ = ⟨7, none, some 30, 5, 10, true⟩ := by
  have hrej : (match some (2:ℤ) with | none => (0:ℤ) | some v => if v < 0 then 0 else v) ≥
        (match some (2:ℤ) with | none => (1:ℤ) | some v => if v < 1 then 1 else v) ∨
      |(match some (0:ℤ) with | none => (0:ℤ) | some v => v)| >
        (match some (2:ℤ) with | none => (0:ℤ) | some v => if v < 0 then 0 else v) := by
    left
    norm_num
  exact ⟨hrej, c6_invalid_rejected_before_session (some 2) (some 2) (some 0) (some 1)
    (some 500) false ⟨7, none, some 30, 5, 10, true⟩ hrej⟩

/-- C10: the effective sample target is capped at MAX_ELECTRONS = 30000.
Part one: any call to createOrbitalFromUI either returns the state unchanged
or leaves a sampleTarget of at most 30000 with the buffer either cleared or
allocated at exactly sampleTarget*3 floats; if more than 30000 electrons are
requested the target is exactly 30000.  Part two: a sampler chunk never grows
sampleCount beyond the requested count, so no buffer ever holds more than its
(capped) target of points. -/
theorem c10_sample_target_capped :
    (∀ (nIn lIn mIn : Option ℤ) (sizeIn : Option ℚ) (numIn : Option ℤ)
       (completeMode : Bool) (st : UIState),
      (createOrbitalFromUI nIn lIn mIn sizeIn numIn completeMode st = st ∨
        ((createOrbitalFromUI nIn lIn mIn sizeIn numIn completeMode st).sampleTarget ≤
            MAX_ELECTRONS ∧
          ((createOrbitalFromUI nIn lIn mIn sizeIn numIn completeMode st).bufSize = none ∨
            (createOrbitalFromUI nIn lIn mIn sizeIn numIn completeMode st).bufSize =
              some ((createOrbitalFromUI nIn lIn mIn sizeIn numIn
                completeMode st).sampleTarget * 3)))) ∧
      (∀ v : ℤ, numIn = some v → MAX_ELECTRONS < v →
        createOrbitalFromUI nIn lIn mIn sizeIn numIn completeMode st = st ∨
          (createOrbitalFromUI nIn lIn mIn sizeIn numIn completeMode st).sampleTarget =
            MAX_ELECTRONS)) ∧
    (∀ (attempt : ℕ → Option Point) (n l : ℕ) (es : ℝ) (rngF : ℕ → ℕ → ℝ)
       (sid cur numSamples : ℕ) (st : SamplerState),
      st.sampleCount ≤ numSamples →
      (∀ st2, runChunk attempt n l es rngF sid cur numSamples st =
        ChunkResult.rescheduled st2 → st2.sampleCount ≤ numSamples) ∧
      (∀ st2, runChunk attempt n l es rngF sid cur numSamples st =
        ChunkResult.done st2 → st2.sampleCount ≤ numSamples)) := by
  constructor
  · intro nIn lIn mIn sizeIn numIn completeMode st
    constructor
    · simp only [createOrbitalFromUI]
      generalize (match nIn with | none => (1:ℤ) | some v => if v < 1 then 1 else v) = n
      generalize (match lIn with | none => (0:ℤ) | some v => if v < 0 then 0 else v) = l
      generalize (match mIn with | none => (0:ℤ) | some v => v) = m
      generalize (match sizeIn with
        | none => (1.0:ℚ) | some v => if v ≤ 0 then 1.0 else v) = es
      generalize (match numIn with
        | none => (0:ℤ) | some v => if v < 0 then 0 else v) = num0
      rcases le_or_lt num0 MAX_ELECTRONS with hcl | hcl
      · rw [if_neg (not_lt.mpr hcl)]
        split_ifs with h1 h2 h3 h4
        · exact Or.inl rfl
        · exact Or.inl rfl
        · exact Or.inl rfl
        · exact Or.inr ⟨by norm_num [MAX_ELECTRONS], Or.inl rfl⟩
        · exact Or.inr ⟨hcl, Or.inr rfl⟩
      · rw [if_pos hcl]
        split_ifs with h1 h2 h3 h4
        · exact Or.inl rfl
        · exact Or.inl rfl
        · exact Or.inl rfl
        · exact Or.inr ⟨by norm_num [MAX_ELECTRONS], Or.inl rfl⟩
        · exact Or.inr ⟨le_refl _, Or.inr rfl⟩
    · intro v hv hgt
      subst hv
      simp only [createOrbitalFromUI]
      have hv0 : ¬ (v < 0) := by
        simp only [MAX_ELECTRONS] at hgt
        omega
      rw [if_neg hv0, if_pos hgt]
      split_ifs with h1 h2 h3 h4
      · exact Or.inl rfl
      · exact Or.inl rfl
      · exact Or.inl rfl
      · exfalso
        simp only [MAX_ELECTRONS] at h4
        omega
      · exact Or.inr rfl
  · intro attempt n l es rngF sid cur numSamples st h
    exact runChunk_count_le attempt n l es rngF sid cur numSamples st h

/-- Overlay tuning constants (lines 100-126, 1900-1918).  Colors and alpha
values are fixed rendering attributes (RING_COLOR, RING_ALPHA,
DZ2_OVERLAY_COLOR, DZ2_OVERLAY_ALPHA) and are not part of the geometric
descriptor modelled here. -/
def S_OVERLAY_SCALE : ℝ := 0.85

/-- P-orbital x-fallback axial boost (line 106). -/
def P_PX_AXIAL_BOOST : ℝ := 1.15

/-- P-orbital x-fallback radial boost (line 107). -/
def P_PX_RADIAL_BOOST : ℝ := 1.10

/-- Dz2 lobe scale (line 102). -/
def DZ_LOBE_SCALE : ℝ := 1.00

/-- Dz2 z shrink (line 103). -/
def LOBE_Z_SHRINK : ℝ := 1.00

/-- Dz2 axial extension (line 104). -/
def LOBE_AXIAL_EXTEND : ℝ := 1.70

/-- Dz2 z offset multiplier (line 105). -/
def LOBE_Z_OFFSET_MULT : ℝ := 0.18

/-- Dz2 radial percentile multiplier (line 108). -/
def LOBE_RADIAL_PERCENTILE_MULT : ℝ := 0.65

/-- Dz2 radial growth (line 109). -/
def LOBE_RADIAL_EXTRA_GROW : ℝ := 1.03

/-- Dz2 axial offset scale (line 1914). -/
def DZ2_AXIAL_OFFSET_SCALE : ℝ := 0.75

/-- Ring shrink factor applied to both ring radii (line 1900). -/
def DZ2_RING_SHRINK_FACTOR : ℝ := 0.92

/-- Default ring diameters (lines 120-121). -/
def RING_DEFAULT_INNER_DIAM : ℝ := 120.0

/-- Default outer ring diameter (line 121). -/
def RING_DEFAULT_OUTER_DIAM : ℝ := 180.0

/-- Percentile used by the shape-fitting engine (line 1916). -/
def OVERLAY_PERCENTILE : ℝ := 0.95

/-- Ring inner percentile (line 1917). -/
def OVERLAY_RING_INNER_P : ℝ := 0.10

/-- Ring outer percentile (line 1918). -/
def OVERLAY_RING_OUTER_P : ℝ := 0.90

/-- D-orbital radial shrink (line 126). -/
def D_RADIAL_SHRINK_FACTOR : ℝ := 0.80

/-- D-orbital radial expansion (line 1904). -/
def D_RADIAL_EXPAND_FACTOR : ℝ := 1.15

/-- A p-orbital lobe of the overlay descriptor (axis direction, axial extent
t95, radial extent r95). -/
structure PLobe where
  axisUnit : Point
  t95 : ℝ
  r95 : ℝ

/-- Default lobe used only as the out-of-range value of list indexing. -/
def dfltPLobe : PLobe := ⟨(0, 0, 0), 0, 0⟩

/-- The equatorial torus of the dz2 descriptor (lines 3893-3900). -/
structure RingData where
  innerRadius : ℝ
  outerRadius : ℝ
  majorRadius : ℝ
  tubeRadius : ℝ

/-- The dz2 overlay data (lines 3886-3901). -/
structure Dz2Data where
  t80pos : ℝ
  t80neg : ℝ
  lobeRadial : ℝ
  axialOffsetPos : ℝ
  axialOffsetNeg : ℝ
  ring : RingData

/-- A lobe of the l=2, m/=0 descriptor (lines 4087-4094). -/
structure DLobe where
  axisUnit : Point
  axial : ℝ
  radialMajor : ℝ
  radialMinor : ℝ
  radialAngle : ℝ
  nearSideCompression : ℝ

/-- An intermediate lobe of the l=2, m/=0 pass (lines 4012-4020).  The source
objects carry proj_r1_90/proj_r2_90 only for cluster lobes; the pooling loop
reads them as (value || 0.0), so the axis-fallback lobes carry 0 here.  The
stored radialSamples array is never read afterwards and is omitted. -/
structure DLobeRaw where
  axisUnit : Point
  t90 : ℝ
  proj1 : ℝ
  proj2 : ℝ
  radialAngle : ℝ
  idxs : List ℕ

/-- The overlay cache variants (cache.type: null, s, p, dz2, d). -/
inductive OverlayDescriptor
  | nullCache
  | s (r95 : ℝ)
  | p (lobes : List PLobe)
  | dz2 (data : Dz2Data)
  | d (lobes : List DLobe)

/-- dot (lines 2014-2016). -/
def dot3 (a b : Point) : ℝ := a.1 * b.1 + a.2.1 * b.2.1 + a.2.2 * b.2.2

/-- cross (lines 2018-2024). -/
def cross3 (a b : Point) : Point :=
  (a.2.1 * b.2.2 - a.2.2 * b.2.1, a.2.2 * b.1 - a.1 * b.2.2, a.1 * b.2.1 - a.2.1 * b.1)

/-- The repeated normalisation idiom v / (length(v) || 1.0) (lines 3738-3739,
2029-2034, 3977-3978). -/
noncomputable def normalize3OrOne (v : Point) : Point :=
  let len0 := Real.sqrt (v.1 * v.1 + v.2.1 * v.2.1 + v.2.2 * v.2.2)
  let len := if len0 = 0 then 1.0 else len0
  (v.1 / len, v.2.1 / len, v.2.2 / len)

/-- makePerpBasis (lines 2026-2037). -/
noncomputable def makePerpBasis (axisUnit : Point) : Point × Point :=
  let arbitrary : Point := if |axisUnit.1| < 0.9 then (1, 0, 0) else (0, 1, 0)
  let v1 := normalize3OrOne (cross3 axisUnit arbitrary)
  let v2 := normalize3OrOne (cross3 axisUnit v1)
  (v1, v2)

/-- Math.atan2(y, x), as the argument of the complex number x + y*i (both
conventions agree on every input, with value 0 at the origin). -/
noncomputable def atan2 (y x : ℝ) : ℝ :=
  Complex.arg (Complex.ofReal x + Complex.ofReal y * Complex.I)

/-- JS truncating division result (sign toward zero), for the % operator. -/
noncomputable def jsTrunc (x : ℝ) : ℤ := if 0 ≤ x then ⌊x⌋ else -⌊-x⌋

/-- The JS remainder operator a % b (sign of the dividend). -/
noncomputable def jsRem (a b : ℝ) : ℝ := a - b * ((jsTrunc (a / b) : ℤ) : ℝ)

/-- pca2D (lines 2039-2070): returns (angle, lambda1, lambda2).  The two input
lists always have equal length at the call site; paired iteration is a zip. -/
noncomputable def pca2D (proj1Arr proj2Arr : List ℝ) : ℝ × ℝ × ℝ :=
  if proj1Arr.length = 0 then (0, 0, 0)
  else
    let n := (proj1Arr.length : ℝ)
    let m1 := proj1Arr.sum / n
    let m2 := proj2Arr.sum / n
    let c11 := ((proj1Arr.map (fun a => (a - m1) * (a - m1))).sum) / n
    let c22 := ((proj2Arr.map (fun a => (a - m2) * (a - m2))).sum) / n
    let c12 := (((proj1Arr.zip proj2Arr).map (fun ab => (ab.1 - m1) * (ab.2 - m2))).sum) / n
    let angle := 0.5 * atan2 (2 * c12) (c11 - c22)
    let t := c11 + c22
    let dd := Real.sqrt (max 0 ((c11 - c22) * (c11 - c22) + 4 * c12 * c12))
    (angle, max 0 (0.5 * (t + dd)), max 0 (0.5 * (t - dd)))

/-- The s-orbital branch (lines 3689-3702): 95th-percentile distance times
S_OVERLAY_SCALE, floored at 0.5. -/
noncomputable def overlayS (sampled : List Point) : ℝ :=
  let dists := sampled.map norm3
  max 0.5 (percentile dists OVERLAY_PERCENTILE * S_OVERLAY_SCALE)

/-- One cluster's lobe of the l=1 branch (lines 3717-3757). -/
noncomputable def lobeOfCluster (sampled : List Point) (idxs : List ℕ) : PLobe :=
  let pts := idxs.map (fun i => sampled.getD i (0, 0, 0))
  let sx := (pts.map (fun p => p.1)).sum / (idxs.length : ℝ)
  let sy := (pts.map (fun p => p.2.1)).sum / (idxs.length : ℝ)
  let sz := (pts.map (fun p => p.2.2)).sum / (idxs.length : ℝ)
  let axisUnit := normalize3OrOne (sx, sy, sz)
  let axialVals := pts.map (fun p => |dot3 p axisUnit|)
  let radialVals := pts.map (fun p =>
    Real.sqrt (max 0 (p.1 * p.1 + p.2.1 * p.2.1 + p.2.2 * p.2.2 -
      dot3 p axisUnit * dot3 p axisUnit)))
  ⟨axisUnit, max 0.01 (percentile axialVals OVERLAY_PERCENTILE),
    max 0.01 (percentile radialVals OVERLAY_PERCENTILE)⟩

/-- The lobes computed from the clusters with at least 6 members (line 3719). -/
noncomputable def lobesComputedOf (sampled : List Point) (clusters : List (List ℕ)) :
    List PLobe :=
  (clusters.filter (fun idxs => decide (6 ≤ idxs.length))).map (lobeOfCluster sampled)

/-- The x-split fallback statistics (lines 3760-3771 and identically
3795-3806): boosted 95th percentiles of |x| and of the distance from the x
axis, with defaults 8 and 2 on an empty buffer. -/
noncomputable def pxFallback (sampled : List Point) : ℝ × ℝ :=
  let absX := sampled.map (fun p => |p.1|)
  let rPerpX := sampled.map (fun p => Real.sqrt (p.2.1 * p.2.1 + p.2.2 * p.2.2))
  let t0 := if absX.length = 0 then 8.0 else percentile absX OVERLAY_PERCENTILE
  let r0 := if rPerpX.length = 0 then 2.0 else percentile rPerpX OVERLAY_PERCENTILE
  (max 0.01 (t0 * P_PX_AXIAL_BOOST), max 0.01 (r0 * P_PX_RADIAL_BOOST))

/-- Lines 3759-3775: fewer than two valid cluster lobes adds the two opposite
x-aligned fallback lobes. -/
noncomputable def lobesWithFallback (sampled : List Point) (clusters : List (List ℕ)) :
    List PLobe :=
  let lc := lobesComputedOf sampled clusters
  if lc.length < 2 then
    lc ++ [⟨(1, 0, 0), (pxFallback sampled).1, (pxFallback sampled).2⟩,
           ⟨(-1, 0, 0), (pxFallback sampled).1, (pxFallback sampled).2⟩]
  else lc

/-- The argmax loop of lines 3777-3786: running (bestIdx, bestAlign), started
at (-1, -1), strict improvement. -/
noncomputable def bestAlignLoop : List PLobe → ℤ → ℤ × ℝ → ℤ × ℝ
  | [], _, st => st
  | lb :: rest, i, st =>
    if st.2 < |lb.axisUnit.1| then bestAlignLoop rest (i + 1) (i, |lb.axisUnit.1|)
    else bestAlignLoop rest (i + 1) st

/-- The canonical extents (lines 3788-3807): those of the best-aligned lobe,
or the x-fallback statistics if no loop iteration ran. -/
noncomputable def canonicalTR (sampled : List Point) (lobes : List PLobe) : ℝ × ℝ :=
  let bestIdx := (bestAlignLoop lobes 0 (-1, -1)).1
  if 0 ≤ bestIdx then
    ((lobes.getD bestIdx.toNat dfltPLobe).t95, (lobes.getD bestIdx.toNat dfltPLobe).r95)
  else pxFallback sampled

/-- The l=1 branch of computeOverlay (lines 3704-3831). -/
noncomputable def overlayP (sampled : List Point) (clusters : List (List ℕ)) :
    List PLobe :=
  if sampled.length < 6 then
    [⟨(1, 0, 0), 8, 2⟩, ⟨(-1, 0, 0), 8, 2⟩]
  else
    let lobes := lobesWithFallback sampled clusters
    let ctr := canonicalTR sampled lobes
    let lobesFinal := lobes.map (fun lb => (⟨lb.axisUnit, ctr.1, ctr.2⟩ : PLobe))
    if lobesFinal.length = 1 then
      lobesFinal ++ [⟨(-(lobesFinal.getD 0 dfltPLobe).axisUnit.1,
        -(lobesFinal.getD 0 dfltPLobe).axisUnit.2.1,
        -(lobesFinal.getD 0 dfltPLobe).axisUnit.2.2), ctr.1, ctr.2⟩]
    else lobesFinal

/-- The l=2, m=0 branch of computeOverlay (lines 3835-3903). -/
noncomputable def overlayDz2 (sampled : List Point) : Dz2Data :=
  let posAxial := (sampled.filter (fun p => 0 ≤ p.2.2)).map (fun p => p.2.2)
  let negAxial := (sampled.filter (fun p => p.2.2 < 0)).map (fun p => -p.2.2)
  let radialXYAll := sampled.map (fun p => Real.sqrt (p.1 * p.1 + p.2.1 * p.2.1))
  let t95posRaw := if posAxial.length = 0 then 0 else percentile posAxial OVERLAY_PERCENTILE
  let t95negRaw := if negAxial.length = 0 then 0 else percentile negAxial OVERLAY_PERCENTILE
  let t95pos := max 1.0 (t95posRaw * DZ_LOBE_SCALE * LOBE_Z_SHRINK * LOBE_AXIAL_EXTEND)
  let t95neg := max 1.0 (t95negRaw * DZ_LOBE_SCALE * LOBE_Z_SHRINK * LOBE_AXIAL_EXTEND)
  let lobeRadial95 := if radialXYAll.length = 0 then 2.0
    else percentile radialXYAll OVERLAY_PERCENTILE * LOBE_RADIAL_PERCENTILE_MULT
  let lobeRadial := max 0.9 (lobeRadial95 * LOBE_RADIAL_EXTRA_GROW)
  let axialOffsetPos := t95pos * LOBE_Z_OFFSET_MULT * DZ2_AXIAL_OFFSET_SCALE
  let axialOffsetNeg := t95neg * LOBE_Z_OFFSET_MULT * DZ2_AXIAL_OFFSET_SCALE
  let eqThreshold := max (0.2 * max t95posRaw t95negRaw) 1.0
  let radialXYEquatorial := (sampled.filter (fun p => |p.2.2| ≤ eqThreshold)).map
    (fun p => Real.sqrt (p.1 * p.1 + p.2.1 * p.2.1))
  let ri0 := if 8 ≤ radialXYEquatorial.length then
      max (NUCLEUS_RADIUS + ELECTRON_MIN_GAP)
        (percentile radialXYEquatorial OVERLAY_RING_INNER_P)
    else RING_DEFAULT_INNER_DIAM * 0.5
  let ro0 := if 8 ≤ radialXYEquatorial.length then
      max (ri0 + 0.001) (percentile radialXYEquatorial OVERLAY_RING_OUTER_P)
    else RING_DEFAULT_OUTER_DIAM * 0.5
  let ringInnerRadius := ri0 * DZ2_RING_SHRINK_FACTOR
  let ringOuterRadius := ro0 * DZ2_RING_SHRINK_FACTOR
  let tubeRadius := max 1.0 ((ringOuterRadius - ringInnerRadius) * 0.5)
  let majorRadius := (ringInnerRadius + ringOuterRadius) * 0.5
  ⟨t95pos, t95neg, lobeRadial, axialOffsetPos, axialOffsetNeg,
    ⟨ringInnerRadius, ringOuterRadius, majorRadius, tubeRadius⟩⟩

/-- The small-sample fallback of the l=2, m/=0 branch (lines 3906-3934). -/
noncomputable def dSmallFallback (sampled : List Point) : List DLobe :=
  let allRadial := sampled.map (fun p => Real.sqrt (p.1 * p.1 + p.2.1 * p.2.1))
  let allAxial := sampled.map (fun p => |p.2.2|)
  let globalT95 := max 0.01 (percentile allAxial OVERLAY_PERCENTILE * 1.05)
  let globalRBase := max 0.01 (percentile allRadial OVERLAY_PERCENTILE * 1.05)
  let globalR95 := globalRBase * D_RADIAL_SHRINK_FACTOR * D_RADIAL_EXPAND_FACTOR
  ([(1, 0, 0), (-1, 0, 0), (0, 1, 0), (0, -1, 0)] : List Point).map
    (fun a => ⟨a, globalT95, globalR95, globalR95, 0, max 0 (globalT95 * 0.06)⟩)

/-- One cluster's raw lobe of the l=2, m/=0 branch (lines 3955-4020).  pca2D
always returns an object with a numeric angle, so the typeof guard at line
4009 always adopts it. -/
noncomputable def dLobeOfCluster (sampled : List Point) (idxs : List ℕ) : DLobeRaw :=
  let pts := idxs.map (fun i => sampled.getD i (0, 0, 0))
  let sx := (pts.map (fun p => p.1)).sum / (idxs.length : ℝ)
  let sy := (pts.map (fun p => p.2.1)).sum / (idxs.length : ℝ)
  let sz := (pts.map (fun p => p.2.2)).sum / (idxs.length : ℝ)
  let axisUnit := normalize3OrOne (sx, sy, sz)
  let basis := makePerpBasis axisUnit
  let axialVals := pts.map (fun p => |dot3 p axisUnit|)
  let proj1 := pts.map (fun p => |dot3 p basis.1|)
  let proj2 := pts.map (fun p => |dot3 p basis.2|)
  let t95 := max 0.01 (percentile axialVals OVERLAY_PERCENTILE)
  let r1_95 := max 0.01 (percentile proj1 OVERLAY_PERCENTILE)
  let r2_95 := max 0.01 (percentile proj2 OVERLAY_PERCENTILE)
  let rotationAngle := if r1_95 < r2_95 then Real.pi * 0.5 else 0
  let preciseAngle := if 8 ≤ idxs.length then
      (pca2D ((pts.map (fun p => dot3 p basis.1)).map (fun a => |a|))
        ((pts.map (fun p => dot3 p basis.2)).map (fun a => |a|))).1
    else rotationAngle
  ⟨axisUnit, t95, r1_95, r2_95, preciseAngle, idxs⟩

/-- The axis-aligned fallback of the pooled pass (lines 4023-4049); the
radialMajor/radialMinor fields it stores are never read afterwards. -/
noncomputable def dGlobalFallbackRaw (sampled : List Point) : List DLobeRaw :=
  let allAxial := sampled.map (fun p => |p.2.2|)
  let globalT95 := max 0.01 (percentile allAxial OVERLAY_PERCENTILE * 1.05)
  ([(1, 0, 0), (-1, 0, 0), (0, 1, 0), (0, -1, 0)] : List Point).map
    (fun a => ⟨a, globalT95, 0, 0, 0, []⟩)

/-- The l=2, m/=0 branch of computeOverlay (lines 3905-4100).  The two kmeans
runs (40 iterations, and the 60-iteration retry when some cluster is under
minClusterSize) are random; their outputs are the parameters clusters and
clustersRetry.  Math.floor(count * 0.02) is count/50 in exact arithmetic. -/
noncomputable def overlayD (sampled : List Point) (clusters clustersRetry : List (List ℕ)) :
    List DLobe :=
  if sampled.length < 8 then dSmallFallback sampled
  else
    let minClusterSize := max 4 (sampled.length / 50)
    let clusters1 := if clusters.any (fun c => decide (c.length < minClusterSize)) then
        clustersRetry
      else clusters
    let lobes0 := (clusters1.filter (fun idxs => decide (4 ≤ idxs.length))).map
      (dLobeOfCluster sampled)
    let lobes := if lobes0.length < 4 then dGlobalFallbackRaw sampled else lobes0
    let axialAll := (lobes.map (fun L =>
      if L.idxs.length = 0 then [L.t90]
      else L.idxs.map (fun i =>
        |dot3 (sampled.getD i (0, 0, 0)) L.axisUnit|))).flatten
    let radialAll := (lobes.map (fun L =>
      if L.idxs.length = 0 then [max L.proj1 L.proj2]
      else L.idxs.map (fun i =>
        Real.sqrt (max 0 (dot3 (sampled.getD i (0, 0, 0)) (sampled.getD i (0, 0, 0)) -
          dot3 (sampled.getD i (0, 0, 0)) L.axisUnit *
          dot3 (sampled.getD i (0, 0, 0)) L.axisUnit))))).flatten
    let canonicalAxial := max 0.01
      (if axialAll.length = 0 then 8.0 else percentile axialAll OVERLAY_PERCENTILE)
    let canonicalRadial := max 0.01
      ((if radialAll.length = 0 then 2.0 else percentile radialAll OVERLAY_PERCENTILE) *
        D_RADIAL_SHRINK_FACTOR * D_RADIAL_EXPAND_FACTOR)
    lobes.map (fun L =>
      ⟨L.axisUnit, canonicalAxial, canonicalRadial, canonicalRadial,
        jsRem (L.radialAngle + Real.pi) (2 * Real.pi) - Real.pi,
        max 0 (canonicalAxial * 0.06)⟩)

/-- The subsample of at most ~3000 points computeOverlay works on
(lines 3668-3679): every step-th index. -/
noncomputable def subsampleForOverlay (positions : List Point) : List Point :=
  let n := positions.length
  let step := max 1 (n / 3000)
  ((List.range n).filter (fun i => i % step = 0)).map (fun i => positions.getD i (0, 0, 0))

/-- computeOverlay (lines 3657-4106): none when overlays are disabled or the
buffer is empty; otherwise the descriptor computed from the subsample,
dispatched on (l, m).  l outside 0..2 leaves the cache type null. -/
noncomputable def computeOverlay (overlayEnabled : Bool) (positions : List Point)
    (l m : ℤ) (clusters clustersRetry : List (List ℕ)) : Option OverlayDescriptor :=
  if ¬ overlayEnabled then none
  else if positions.length = 0 then none
  else
    let sampled := subsampleForOverlay positions
    if l = 0 then some (.s (overlayS sampled))
    else if l = 1 then some (.p (overlayP sampled clusters))
    else if l = 2 then
      if m = 0 then some (.dz2 (overlayDz2 sampled))
      else some (.d (overlayD sampled clusters clustersRetry))
    else some .nullCache

theorem ring_bounds_aux (P1 P2 : ℝ) (c : Prop) [Decidable c] :
    (if c then max (NUCLEUS_RADIUS + ELECTRON_MIN_GAP) P1
      else RING_DEFAULT_INNER_DIAM * 0.5) * DZ2_RING_SHRINK_FACTOR <
      (if c then max ((if c then max (NUCLEUS_RADIUS + ELECTRON_MIN_GAP) P1
          else RING_DEFAULT_INNER_DIAM * 0.5) + 0.001) P2
        else RING_DEFAULT_OUTER_DIAM * 0.5) * DZ2_RING_SHRINK_FACTOR ∧
    DZ2_RING_SHRINK_FACTOR * (NUCLEUS_RADIUS + ELECTRON_MIN_GAP) ≤
      (if c then max (NUCLEUS_RADIUS + ELECTRON_MIN_GAP) P1
        else RING_DEFAULT_INNER_DIAM * 0.5) * DZ2_RING_SHRINK_FACTOR := by
  split_ifs with h
  · constructor
    · apply mul_lt_mul_of_pos_right _ (by norm_num [DZ2_RING_SHRINK_FACTOR])
      calc max (NUCLEUS_RADIUS + ELECTRON_MIN_GAP) P1 <
          max (NUCLEUS_RADIUS + ELECTRON_MIN_GAP) P1 + 0.001 := by norm_num
        _ ≤ max (max (NUCLEUS_RADIUS + ELECTRON_MIN_GAP) P1 + 0.001) P2 := le_max_left _ _
    · have h24 : NUCLEUS_RADIUS + ELECTRON_MIN_GAP ≤
          max (NUCLEUS_RADIUS + ELECTRON_MIN_GAP) P1 := le_max_left _ _
      have hf : (0:ℝ) < DZ2_RING_SHRINK_FACTOR := by norm_num [DZ2_RING_SHRINK_FACTOR]
      nlinarith
  · norm_num [NUCLEUS_RADIUS, ELECTRON_MIN_GAP, DZ2_RING_SHRINK_FACTOR,
      RING_DEFAULT_INNER_DIAM, RING_DEFAULT_OUTER_DIAM]

/-- Ring bounds of the dz2 descriptor: the inner radius is strictly below the
outer radius, and the inner radius is at least the shrunk clearance
0.92 * 24 = 22.08 (both cases: percentile-derived ring and default ring). -/
theorem overlayDz2_ring (sampled : List Point) :
    (overlayDz2 sampled).ring.innerRadius < (overlayDz2 sampled).ring.outerRadius ∧
    DZ2_RING_SHRINK_FACTOR * (NUCLEUS_RADIUS + ELECTRON_MIN_GAP) ≤
      (overlayDz2 sampled).ring.innerRadius := by
  simp only [overlayDz2]
  exact ring_bounds_aux _ _ _

/-- C3 (amended): for every non-empty buffer, computeOverlay at l=2, m=0
produces the axial-lobes-with-ring (dz2) descriptor, whose ring satisfies
innerRadius < outerRadius; both radii are at least
DZ2_RING_SHRINK_FACTOR * (NUCLEUS_RADIUS + ELECTRON_MIN_GAP) = 22.08, but not
necessarily above the unshrunk clearance 24 (see the counterexample). -/
theorem c3_dz2_descriptor_ring (positions : List Point)
    (clusters clustersRetry : List (List ℕ)) (hne : positions.length ≠ 0) :
    ∃ dd : Dz2Data,
      computeOverlay true positions 2 0 clusters clustersRetry =
        some (OverlayDescriptor.dz2 dd) ∧
      dd.ring.innerRadius < dd.ring.outerRadius ∧
      DZ2_RING_SHRINK_FACTOR * (NUCLEUS_RADIUS + ELECTRON_MIN_GAP) ≤
        dd.ring.innerRadius := by
  refine ⟨overlayDz2 (subsampleForOverlay positions), ?_, (overlayDz2_ring _).1,
    (overlayDz2_ring _).2⟩
  simp only [computeOverlay]
  rw [if_neg (by simp), if_neg hne]
  norm_num

/-- Witness for the amended C3 at the one-point buffer [(30,0,0)]. -/
theorem c3_witness :
    ([((30:ℝ), 0, 0)] : List Point).length ≠ 0 ∧
    ∃ dd : Dz2Data,
      computeOverlay true [((30:ℝ), 0, 0)] 2 0 [] [] =
        some (OverlayDescriptor.dz2 dd) ∧
      dd.ring.innerRadius < dd.ring.outerRadius ∧
      DZ2_RING_SHRINK_FACTOR * (NUCLEUS_RADIUS + ELECTRON_MIN_GAP) ≤
        dd.ring.innerRadius :=
  ⟨by norm_num, c3_dz2_descriptor_ring [((30:ℝ), 0, 0)] [] [] (by norm_num)⟩

theorem filter_replicate_of_pos {α : Type} (p : α → Bool) (a : α) (h : p a = true) :
    ∀ n : ℕ, (List.replicate n a).filter p = List.replicate n a := by
  intro n
  induction n with
  | zero => simp
  | succ k ih => rw [List.replicate_succ, List.filter_cons, if_pos h, ih]

theorem filter_replicate_of_neg {α : Type} (p : α → Bool) (a : α) (h : p a = false) :
    ∀ n : ℕ, (List.replicate n a).filter p = [] := by
  intro n
  induction n with
  | zero => simp
  | succ k ih => rw [List.replicate_succ, List.filter_cons, h, ih]; simp

theorem sorted_replicate_le (k : ℕ) (a : ℝ) :
    List.Sorted (fun x y : ℝ => x ≤ y) (List.replicate k a) := by
  induction k with
  | zero => simp
  | succ n ih =>
    rw [List.replicate_succ]
    refine List.sorted_cons.mpr ⟨?_, ih⟩
    intro b hb
    rw [List.eq_of_mem_replicate hb]

theorem percentile_replicate (k : ℕ) (hk : k ≠ 0) (a p : ℝ) (hp : 0 ≤ p) :
    percentile (List.replicate k a) p = a := by
  unfold percentile
  rw [if_neg (by simp [hk])]
  simp only [List.Sorted.insertionSort_eq (sorted_replicate_le k a), List.length_replicate]
  have hfl : 0 ≤ ⌊p * (k : ℝ)⌋ := Int.floor_nonneg.mpr (by positivity)
  have hidx : (min ((k : ℤ) - 1) ⌊p * (k : ℝ)⌋).toNat < k := by
    have h1 : min ((k : ℤ) - 1) ⌊p * (k : ℝ)⌋ ≤ (k : ℤ) - 1 := min_le_left _ _
    omega
  rw [List.getD_eq_getElem _ _ (by simpa using hidx)]
  simp

theorem map_getD_range (ps : List Point) :
    (List.range ps.length).map (fun i => ps.getD i (0, 0, 0)) = ps := by
  apply List.ext_getElem
  · simp
  · intro i h1 h2
    simp only [List.getElem_map, List.getElem_range]
    rw [List.getD_eq_getElem _ _ h2]

theorem subsample_short (ps : List Point) (h : ps.length ≤ 3000) :
    subsampleForOverlay ps = ps := by
  simp only [subsampleForOverlay]
  have hstep : max 1 (ps.length / 3000) = 1 := by omega
  simp only [hstep, Nat.mod_one]
  simpa using map_getD_range ps

/-- Counterexample to C3 as stated: on the non-empty buffer of eight copies of
(10, 0, 0) (all points equatorial at cylindrical radius 10), the ring
percentiles fall below the clearance, so innerRadius = max(24, 10) * 0.92 =
22.08, which is NOT strictly greater than NUCLEUS_RADIUS + ELECTRON_MIN_GAP
= 24: the DZ2_RING_SHRINK_FACTOR multiplication (line 3880) can push the ring
below the clearance. -/
theorem c3_counterexample :
    ∃ dd : Dz2Data,
      computeOverlay true (List.replicate 8 ((10:ℝ), 0, 0)) 2 0 [] [] =
        some (OverlayDescriptor.dz2 dd) ∧
      dd.ring.innerRadius = 22.08 ∧
      ¬ (NUCLEUS_RADIUS + ELECTRON_MIN_GAP < dd.ring.innerRadius) := by
  have hsub : subsampleForOverlay (List.replicate 8 ((10:ℝ), 0, 0)) =
      List.replicate 8 ((10:ℝ), 0, 0) := subsample_short _ (by simp)
  have hdisp : computeOverlay true (List.replicate 8 ((10:ℝ), 0, 0)) 2 0 [] [] =
      some (OverlayDescriptor.dz2 (overlayDz2 (List.replicate 8 ((10:ℝ), 0, 0)))) := by
    simp only [computeOverlay, hsub]
    norm_num
  have hp0 : percentile (List.replicate 8 (0:ℝ)) OVERLAY_PERCENTILE = 0 :=
    percentile_replicate 8 (by norm_num) 0 OVERLAY_PERCENTILE
      (by norm_num [OVERLAY_PERCENTILE])
  have hpI : percentile (List.replicate 8 (10:ℝ)) OVERLAY_RING_INNER_P = 10 :=
    percentile_replicate 8 (by norm_num) 10 OVERLAY_RING_INNER_P
      (by norm_num [OVERLAY_RING_INNER_P])
  have hpO : percentile (List.replicate 8 (10:ℝ)) OVERLAY_RING_OUTER_P = 10 :=
    percentile_replicate 8 (by norm_num) 10 OVERLAY_RING_OUTER_P
      (by norm_num [OVERLAY_RING_OUTER_P])
  have hs : Real.sqrt ((10:ℝ) * 10 + 0 * 0) = 10 := by
    rw [show (10:ℝ) * 10 + 0 * 0 = 10 ^ 2 by norm_num,
      Real.sqrt_sq (by norm_num : (0:ℝ) ≤ 10)]
  have hs100 : Real.sqrt (100:ℝ) = 10 := by
    rw [show (100:ℝ) = 10 ^ 2 by norm_num, Real.sqrt_sq (by norm_num : (0:ℝ) ≤ 10)]
  have hfpos : List.filter (fun p : Point => decide (0 ≤ p.2.2))
      (List.replicate 8 ((10:ℝ), 0, 0)) = List.replicate 8 ((10:ℝ), 0, 0) :=
    filter_replicate_of_pos _ _ (by norm_num) 8
  have hfneg : List.filter (fun p : Point => decide (p.2.2 < 0))
      (List.replicate 8 ((10:ℝ), 0, 0)) = [] :=
    filter_replicate_of_neg _ _ (by norm_num) 8
  have hfeq : ∀ X : ℝ, List.filter (fun p : Point => decide (|p.2.2| ≤ max X 1.0))
      (List.replicate 8 ((10:ℝ), 0, 0)) = List.replicate 8 ((10:ℝ), 0, 0) := by
    intro X
    refine filter_replicate_of_pos _ _ ?_ 8
    have : |((10:ℝ), (0:ℝ), (0:ℝ)).2.2| ≤ max X 1.0 := by
      simp only []
      rw [show |(0:ℝ)| = 0 by norm_num]
      exact le_trans (by norm_num) (le_max_right X 1.0)
    simpa using this
  have hinner : (overlayDz2 (List.replicate 8 ((10:ℝ), 0, 0))).ring.innerRadius =
      22.08 := by
    simp only [overlayDz2, hfpos, hfneg, hfeq, List.map_replicate, List.map_nil,
      List.length_replicate, List.length_nil]
    norm_num [hp0, hpI, hpO, hs, hs100, NUCLEUS_RADIUS, ELECTRON_MIN_GAP,
      DZ2_RING_SHRINK_FACTOR]
  refine ⟨overlayDz2 (List.replicate 8 ((10:ℝ), 0, 0)), hdisp, hinner, ?_⟩
  rw [hinner]
  norm_num [NUCLEUS_RADIUS, ELECTRON_MIN_GAP]

/-- The argmax loop either never improves on its running state (and every
element is bounded by it) or returns the absolute index and alignment of a
maximal element. -/
theorem bestAlignLoop_spec (lobes : List PLobe) :
    ∀ (i : ℤ) (st : ℤ × ℝ),
      (bestAlignLoop lobes i st = st ∧ ∀ lb ∈ lobes, |lb.axisUnit.1| ≤ st.2) ∨
      (∃ j : ℕ, j < lobes.length ∧
        (bestAlignLoop lobes i st).1 = i + j ∧
        (bestAlignLoop lobes i st).2 = |(lobes.getD j dfltPLobe).axisUnit.1| ∧
        st.2 ≤ (bestAlignLoop lobes i st).2 ∧
        ∀ lb ∈ lobes, |lb.axisUnit.1| ≤ (bestAlignLoop lobes i st).2) := by
  induction lobes with
  | nil =>
    intro i st
    exact Or.inl ⟨rfl, by simp⟩
  | cons lb rest ih =>
    intro i st
    rw [bestAlignLoop]
    by_cases hlt : st.2 < |lb.axisUnit.1|
    · rw [if_pos hlt]
      rcases ih (i + 1) (i, |lb.axisUnit.1|) with ⟨heq, hall⟩ | ⟨j, hj, h1, h2, h3, hall⟩
      · right
        refine ⟨0, by simp, ?_, ?_, ?_, ?_⟩
        · rw [heq]; simp
        · rw [heq]; simp
        · rw [heq]; exact le_of_lt hlt
        · intro lb2 hmem
          rcases List.mem_cons.mp hmem with h | h
          · subst h; rw [heq]
          · rw [heq]; exact hall lb2 h
      · right
        refine ⟨j + 1, by simpa using hj, ?_, ?_, ?_, ?_⟩
        · rw [h1]; push_cast; ring
        · rw [List.getD_cons_succ]; exact h2
        · exact le_trans (le_of_lt hlt) (by simpa using h3)
        · intro lb2 hmem
          rcases List.mem_cons.mp hmem with h | h
          · subst h; simpa using h3
          · exact hall lb2 h
    · rw [if_neg hlt]
      rcases ih (i + 1) st with ⟨heq, hall⟩ | ⟨j, hj, h1, h2, h3, hall⟩
      · left
        refine ⟨heq, ?_⟩
        intro lb2 hmem
        rcases List.mem_cons.mp hmem with h | h
        · subst h; exact not_lt.mp hlt
        · exact hall lb2 h
      · right
        refine ⟨j + 1, by simpa using hj, ?_, ?_, h3, ?_⟩
        · rw [h1]; push_cast; ring
        · rw [List.getD_cons_succ]; exact h2
        · intro lb2 hmem
          rcases List.mem_cons.mp hmem with h | h
          · subst h; exact le_trans (not_lt.mp hlt) h3
          · exact hall lb2 h

/-- Started from (-1, -1), the loop on a non-empty list picks the first index
of maximal |axisUnit.x|, and canonicalTR returns that lobe's extents. -/
theorem canonicalTR_spec (sampled : List Point) (lobes : List PLobe) (hne : lobes ≠ []) :
    ∃ j : ℕ, j < lobes.length ∧
      canonicalTR sampled lobes =
        ((lobes.getD j dfltPLobe).t95, (lobes.getD j dfltPLobe).r95) ∧
      ∀ lb ∈ lobes, |lb.axisUnit.1| ≤ |(lobes.getD j dfltPLobe).axisUnit.1| := by
  rcases bestAlignLoop_spec lobes 0 (-1, -1) with ⟨heq, hall⟩ | ⟨j, hj, h1, h2, h3, hall⟩
  · exfalso
    obtain ⟨lb, hmem⟩ := List.exists_mem_of_ne_nil lobes hne
    have h := hall lb hmem
    have h2 : |lb.axisUnit.1| ≤ (-1:ℝ) := h
    linarith [abs_nonneg lb.axisUnit.1]
  · refine ⟨j, hj, ?_, ?_⟩
    · have hbi : (bestAlignLoop lobes 0 (-1, -1)).1 = (j : ℤ) := by rw [h1]; ring
      simp only [canonicalTR, hbi]
      rw [if_pos (by positivity)]
      simp
    · intro lb hmem
      have := hall lb hmem
      rw [h2] at this
      exact this

theorem lobesWithFallback_length (sampled : List Point) (clusters : List (List ℕ)) :
    2 ≤ (lobesWithFallback sampled clusters).length := by
  simp only [lobesWithFallback]
  split_ifs with h
  · simp
  · omega

/-- C5: for every non-empty buffer at l=1 (any m), computeOverlay returns the
lobe-pair descriptor; it has at least two lobes, all lobes carry one common
pair of extents, namely the extents of a lobe whose |axisUnit.x| is maximal
over the pre-canonicalization lobe list (clusters' lobes plus the x-fallback
pair when fewer than two clusters were valid, or the fixed pair on a tiny
sample); and when clustering yields fewer than two valid lobes the output
contains the two opposite x-aligned lobes. -/
theorem c5_p_lobes_canonical (positions : List Point) (m : ℤ)
    (clusters clustersRetry : List (List ℕ)) (hne : positions.length ≠ 0) :
    ∃ lobes : List PLobe,
      computeOverlay true positions 1 m clusters clustersRetry =
        some (OverlayDescriptor.p lobes) ∧
      2 ≤ lobes.length ∧
      (∃ basis : List PLobe, ∃ j : ℕ, j < basis.length ∧
        basis = (if (subsampleForOverlay positions).length < 6 then
            [⟨(1, 0, 0), 8, 2⟩, ⟨(-1, 0, 0), 8, 2⟩]
          else lobesWithFallback (subsampleForOverlay positions) clusters) ∧
        (∀ lb ∈ basis, |lb.axisUnit.1| ≤ |(basis.getD j dfltPLobe).axisUnit.1|) ∧
        ∀ lb ∈ lobes, lb.t95 = (basis.getD j dfltPLobe).t95 ∧
          lb.r95 = (basis.getD j dfltPLobe).r95) ∧
      ((lobesComputedOf (subsampleForOverlay positions) clusters).length < 2 →
        (∃ lb ∈ lobes, lb.axisUnit = ((1:ℝ), (0:ℝ), (0:ℝ))) ∧
        (∃ lb ∈ lobes, lb.axisUnit = ((-1:ℝ), (0:ℝ), (0:ℝ)))) := by
  refine ⟨overlayP (subsampleForOverlay positions) clusters, ?_, ?_, ?_, ?_⟩
  · simp only [computeOverlay]
    rw [if_neg (by simp), if_neg hne]
    norm_num
  · by_cases h6 : (subsampleForOverlay positions).length < 6
    · simp only [overlayP, if_pos h6]
      norm_num
    · simp only [overlayP, if_neg h6]
      have hlen := lobesWithFallback_length (subsampleForOverlay positions) clusters
      rw [if_neg (by simp; omega)]
      simpa using hlen
  · by_cases h6 : (subsampleForOverlay positions).length < 6
    · refine ⟨[⟨(1, 0, 0), 8, 2⟩, ⟨(-1, 0, 0), 8, 2⟩], 0, by norm_num, ?_, ?_, ?_⟩
      · rw [if_pos h6]
      · intro lb hmem
        rcases List.mem_cons.mp hmem with h | h
        · subst h; simp
        · rcases List.mem_cons.mp h with h | h
          · subst h; simp
          · simp at h
      · simp only [overlayP, if_pos h6]
        intro lb hmem
        rcases List.mem_cons.mp hmem with h | h
        · subst h; simp [List.getD_cons_zero]
        · rcases List.mem_cons.mp h with h | h
          · subst h; simp [List.getD_cons_zero]
          · simp at h
    · have hlen := lobesWithFallback_length (subsampleForOverlay positions) clusters
      have hneb : lobesWithFallback (subsampleForOverlay positions) clusters ≠ [] := by
        intro hh
        rw [hh] at hlen
        simp at hlen
      obtain ⟨j, hj, hctr, hmax⟩ :=
        canonicalTR_spec (subsampleForOverlay positions)
          (lobesWithFallback (subsampleForOverlay positions) clusters) hneb
      refine ⟨lobesWithFallback (subsampleForOverlay positions) clusters, j, hj, ?_,
        hmax, ?_⟩
      · rw [if_neg h6]
      · simp only [overlayP, if_neg h6]
        rw [if_neg (by simp; omega)]
        intro lb hmem
        obtain ⟨lb0, hlb0, rfl⟩ := List.mem_map.mp hmem
        rw [hctr]
        exact ⟨rfl, rfl⟩
  · intro hlc
    by_cases h6 : (subsampleForOverlay positions).length < 6
    · simp only [overlayP, if_pos h6]
      constructor
      · exact ⟨⟨(1, 0, 0), 8, 2⟩, by simp, rfl⟩
      · exact ⟨⟨(-1, 0, 0), 8, 2⟩, by simp, rfl⟩
    · simp only [overlayP, if_neg h6]
      have hlen := lobesWithFallback_length (subsampleForOverlay positions) clusters
      rw [if_neg (by simp; omega)]
      have hx : (⟨(1, 0, 0), (pxFallback (subsampleForOverlay positions)).1,
          (pxFallback (subsampleForOverlay positions)).2⟩ : PLobe) ∈
          lobesWithFallback (subsampleForOverlay positions) clusters := by
        simp only [lobesWithFallback, if_pos hlc]
        exact List.mem_append_right _ (by simp)
      have hxm : (⟨(-1, 0, 0), (pxFallback (subsampleForOverlay positions)).1,
          (pxFallback (subsampleForOverlay positions)).2⟩ : PLobe) ∈
          lobesWithFallback (subsampleForOverlay positions) clusters := by
        simp only [lobesWithFallback, if_pos hlc]
        exact List.mem_append_right _ (by simp)
      constructor
      · exact ⟨_, List.mem_map_of_mem _ hx, rfl⟩
      · exact ⟨_, List.mem_map_of_mem _ hxm, rfl⟩

/-- Witness for C5 at the concrete one-point buffer [(1,0,0)]. -/
theorem c5_witness :
    ([((1:ℝ), 0, 0)] : List Point).length ≠ 0 ∧
    (∃ lobes : List PLobe,
      computeOverlay true [((1:ℝ), 0, 0)] 1 0 [] [] =
        some (OverlayDescriptor.p lobes) ∧
      2 ≤ lobes.length ∧
      (∃ basis : List PLobe, ∃ j : ℕ, j < basis.length ∧
        basis = (if (subsampleForOverlay [((1:ℝ), 0, 0)]).length < 6 then
            [⟨(1, 0, 0), 8, 2⟩, ⟨(-1, 0, 0), 8, 2⟩]
          else lobesWithFallback (subsampleForOverlay [((1:ℝ), 0, 0)]) []) ∧
        (∀ lb ∈ basis, |lb.axisUnit.1| ≤ |(basis.getD j dfltPLobe).axisUnit.1|) ∧
        ∀ lb ∈ lobes, lb.t95 = (basis.getD j dfltPLobe).t95 ∧
          lb.r95 = (basis.getD j dfltPLobe).r95) ∧
      ((lobesComputedOf (subsampleForOverlay [((1:ℝ), 0, 0)]) []).length < 2 →
        (∃ lb ∈ lobes, lb.axisUnit = ((1:ℝ), (0:ℝ), (0:ℝ))) ∧
        (∃ lb ∈ lobes, lb.axisUnit = ((-1:ℝ), (0:ℝ), (0:ℝ))))) :=
  ⟨by norm_num, c5_p_lobes_canonical [((1:ℝ), 0, 0)] 0 [] [] (by norm_num)⟩

end Sketch
